import Mathlib


/-!
Shallow embedding of the core of the `express-service-bootstrap` library and
proofs about it.

Embedded components:
* `SortedMap` (src/sorted-map.ts): an ordered-registration keyed collection.
* `BootstrapConstructor` (src/bootstrap-constructor.ts) and
  `DisposableSingletonContainer` (src/disposable-singleton-container.ts):
  the named singleton registry with cohort-ordered disposal.
* A lifecycle/health model of `ApplicationBuilder` (modelled from the spec
  where the lifecycle-based source file is not part of the snapshot).

JavaScript data structures are modelled explicitly:
* `Map<K, V>` as an association list in insertion order; `Map.set` on an
  existing key updates the value in place (keeps its position), otherwise
  appends.
* `Set<K>` as a duplicate-free list in insertion order.
* `Array.prototype.sort(cmp)` is stable (ES2019); it is modelled by a stable
  insertion sort, which agrees with any stable sorting algorithm.
* A JavaScript `number` in an order/priority position is modelled as NaN,
  a signed infinity, or a finite rational.
-/

/-- Model of a JavaScript number appearing as an order argument:
NaN, a signed infinity, or a finite rational value. -/
inductive JSNum where
  | nan : JSNum
  | inf : Bool → JSNum
  | num : ℚ → JSNum
  deriving DecidableEq, Repr


/-- `Number.isNaN(x)` for an optional argument (`none` models `undefined`;
`Number.isNaN(undefined)` is `false`). -/
def jsIsNaN : Option JSNum → Bool
  | some JSNum.nan => true
  | _ => false


/-- `Number.isSafeInteger(x)` for an optional argument: true exactly for
finite integral values of magnitude at most 2^53 - 1.
`Number.isSafeInteger(undefined)` is `false`. -/
def jsIsSafeInteger : Option JSNum → Bool
  | some (JSNum.num q) => decide (q.den = 1) && decide (q.num.natAbs ≤ 9007199254740991)
  | _ => false


/-- `Number.isFinite(x)`: true exactly for finite numbers. -/
def jsIsFinite : JSNum → Bool
  | JSNum.num _ => true
  | _ => false


/-- The integer value of a safe-integer `JSNum` (junk elsewhere). -/
def JSNum.toInt : JSNum → ℤ
  | JSNum.num q => q.num
  | _ => 0


/-- `Map.prototype.get`. -/
def jsMapGet {K V : Type} [DecidableEq K] : List (K × V) → K → Option V
  | [], _ => none
  | p :: rest, k => if p.1 = k then some p.2 else jsMapGet rest k


/-- `Map.prototype.set`: update in place if the key exists (position kept),
otherwise append. -/
def jsMapSet {K V : Type} [DecidableEq K] : List (K × V) → K → V → List (K × V)
  | [], k, v => [(k, v)]
  | p :: rest, k, v => if p.1 = k then (k, v) :: rest else p :: jsMapSet rest k v


/-- `Map.prototype.delete`. -/
def jsMapDelete {K V : Type} [DecidableEq K] (m : List (K × V)) (k : K) : List (K × V) :=
  m.filter (fun p => decide (p.1 ≠ k))


/-- The keys of a JS map model, in insertion order. -/
def jsMapKeys {K V : Type} (m : List (K × V)) : List K :=
  m.map (fun p => p.1)


/-- `Set.prototype.add`: no-op if the element is present, otherwise append. -/
def jsSetAdd {K : Type} [DecidableEq K] (s : List K) (a : K) : List K :=
  if a ∈ s then s else s ++ [a]


/-- Insertion step of the stable sort model: insert `a` after every element
strictly smaller (per the comparator) and before the first other element,
preserving the relative order of ties. -/
def jsSortInsert {α : Type} (lt : α → α → Bool) (a : α) : List α → List α
  | [] => [a]
  | b :: l => if lt b a then b :: jsSortInsert lt a l else a :: b :: l


/-- Model of `Array.prototype.sort(cmp)` where `lt x y` means the comparator
returns a negative number on `(x, y)`. ES2019 requires the sort to be stable,
so a stable insertion sort is an extensionally correct model. -/
def jsSortBy {α : Type} (lt : α → α → Bool) : List α → List α
  | [] => []
  | a :: l => jsSortInsert lt a (jsSortBy lt l)


/-- State of `SortedMap<T>` (src/sorted-map.ts). The payload type of the
JS class is `T`; since `T` may itself be `undefined`, stored values are
modelled as `Option V` with `none` standing for the value `undefined`. -/
structure SortedMap (V : Type) where
  map : List (String × Option V)
  sortedKeys : List (String × ℤ)
  maxOrder : ℤ
  deriving DecidableEq, Repr


/-- A freshly constructed `new SortedMap()`. -/
def SortedMap.empty {V : Type} : SortedMap V :=
  { map := [], sortedKeys := [], maxOrder := 0 }


/-- `SortedMap.set(key, value, order)`.  Source:
`if (Number.isNaN(order) || (!Number.isSafeInteger(order))) throw ...;`
then `maxOrder = max(maxOrder, order)` if `order !== undefined`,
else `order = ++maxOrder`; finally `map.set` and `sortedKeys.set`. -/
def SortedMap.set {V : Type} (s : SortedMap V) (key : String) (value : Option V)
    (order : Option JSNum) : Except String (SortedMap V) :=
  if jsIsNaN order || !jsIsSafeInteger order then
    Except.error "Order must be a valid 32 bit finite number"
  else
    match order with
    | some o =>
        let oi := o.toInt
        Except.ok { map := jsMapSet s.map key value,
                    sortedKeys := jsMapSet s.sortedKeys key oi,
                    maxOrder := max s.maxOrder oi }
    | none =>
        let oi := s.maxOrder + 1
        Except.ok { map := jsMapSet s.map key value,
                    sortedKeys := jsMapSet s.sortedKeys key oi,
                    maxOrder := oi }


/-- `this.map.get(key)` as observed by `SortedMap.sort`: JavaScript cannot
distinguish an absent key from a key stored with value `undefined`. -/
def jsMapGetJoin {V : Type} (m : List (String × Option V)) (k : String) : Option V :=
  (jsMapGet m k).bind id


/-- `SortedMap.sort()`: sort the `sortedKeys` entries ascending by order
(comparator `(a, b) => a[1] - b[1]`), then rebuild a map skipping every key
whose looked-up value is `undefined`. -/
def SortedMap.sort {V : Type} (s : SortedMap V) : List (String × V) :=
  (jsSortBy (fun a b => decide (a.2 < b.2)) s.sortedKeys).foldl (fun acc kv =>
    match jsMapGetJoin s.map kv.1 with
    | none => acc
    | some v => jsMapSet acc kv.1 v) []


/-- `SortedMap.clear()`. -/
def SortedMap.clear {V : Type} (_ : SortedMap V) : SortedMap V :=
  SortedMap.empty


/-! ### DisposableSingletonContainer (src/disposable-singleton-container.ts) -/

/-- A managed instance: an identity plus optional release hooks.
`syncHook` / `asyncHook` are `some b` when the instance exposes
`Symbol.dispose` / `Symbol.asyncDispose` (the source checks `!= null`),
with `b = true` when invoking that hook throws/rejects. -/
structure Instance where
  id : ℕ
  syncHook : Option Bool
  asyncHook : Option Bool
  deriving DecidableEq, Repr


/-- `BootstrapConstructor.createInstance`: `new ctor(...(args || []))`. -/
def BootstrapConstructor.createInstance (typeConstructor : List ℕ → Instance)
    (constructorArguments : Option (List ℕ)) : Instance :=
  typeConstructor (constructorArguments.getD [])


/-- `BootstrapConstructor.createInstanceWithoutConstructor`: `fn(...(args || []))`. -/
def BootstrapConstructor.createInstanceWithoutConstructor
    (typeConstructorFunction : List ℕ → Instance)
    (constructorFunctionArguments : Option (List ℕ)) : Instance :=
  typeConstructorFunction (constructorFunctionArguments.getD [])


/-- `BootstrapConstructor.createAsyncInstanceWithoutConstructor`:
`await fn(...(args || []))`; awaiting is immediate in this single-threaded
model. -/
def BootstrapConstructor.createAsyncInstanceWithoutConstructor
    (typeConstructorFunction : List ℕ → Instance)
    (constructorFunctionArguments : Option (List ℕ)) : Instance :=
  typeConstructorFunction (constructorFunctionArguments.getD [])


/-- State of `DisposableSingletonContainer`: the name → instance map, the
cohort → set-of-names map, and the auto-increment cohort counter. -/
structure DisposableSingletonContainer where
  singletonContainer : List (String × Instance)
  disposeSequenceMap : List (ℤ × List String)
  disposeSequence : ℤ
  deriving DecidableEq, Repr


/-- A default-constructed container. -/
def DisposableSingletonContainer.empty : DisposableSingletonContainer :=
  { singletonContainer := [], disposeSequenceMap := [], disposeSequence := 0 }


/-- JS `a || b` for a numeric cohort argument: `undefined` and `0` are
falsy, so both select the fallback. -/
def jsOrElseInt : Option ℤ → ℤ → ℤ
  | none, d => d
  | some v, d => if v = 0 then d else v


/-- `DisposableSingletonContainer.registerInstance(name, instance,
disposeSequence?, overrideExistingInstance)`. -/
def DisposableSingletonContainer.registerInstance (st : DisposableSingletonContainer)
    (name : String) (inst : Instance) (disposeSequence : Option ℤ)
    (overrideExistingInstance : Bool) : Bool × DisposableSingletonContainer :=
  if overrideExistingInstance = false ∧ (jsMapGet st.singletonContainer name).isSome then
    (false, st)
  else
    let counter := st.disposeSequence + 1
    let seq := jsOrElseInt disposeSequence counter
    let existingMembers := (jsMapGet st.disposeSequenceMap seq).getD []
    (true,
      { singletonContainer := jsMapSet st.singletonContainer name inst,
        disposeSequenceMap := jsMapSet st.disposeSequenceMap seq
          (jsSetAdd existingMembers name),
        disposeSequence := counter })


/-- Result of a create call: how many times the supplied constructor/factory
ran, the container state afterwards, and the returned instance
(`singletonContainer.get(name)`). -/
structure CreateResult where
  calls : ℕ
  st : DisposableSingletonContainer
  result : Option Instance
  deriving DecidableEq, Repr


/-- `DisposableSingletonContainer.createInstance`. -/
def DisposableSingletonContainer.createInstance (st : DisposableSingletonContainer)
    (name : String) (typeConstructor : List ℕ → Instance)
    (constructorArguments : Option (List ℕ)) (disposeSequence : Option ℤ) : CreateResult :=
  if (jsMapGet st.singletonContainer name).isSome then
    { calls := 0, st := st, result := jsMapGet st.singletonContainer name }
  else
    let newInstance := BootstrapConstructor.createInstance typeConstructor constructorArguments
    let st1 := (st.registerInstance name newInstance disposeSequence true).2
    { calls := 1, st := st1, result := jsMapGet st1.singletonContainer name }


/-- `DisposableSingletonContainer.createInstanceWithoutConstructor`. -/
def DisposableSingletonContainer.createInstanceWithoutConstructor
    (st : DisposableSingletonContainer) (name : String)
    (typeConstructorFunction : List ℕ → Instance)
    (constructorFunctionArguments : Option (List ℕ)) (disposeSequence : Option ℤ) :
    CreateResult :=
  if (jsMapGet st.singletonContainer name).isSome then
    { calls := 0, st := st, result := jsMapGet st.singletonContainer name }
  else
    let newInstance := BootstrapConstructor.createInstanceWithoutConstructor
      typeConstructorFunction constructorFunctionArguments
    let st1 := (st.registerInstance name newInstance disposeSequence true).2
    { calls := 1, st := st1, result := jsMapGet st1.singletonContainer name }


/-- `DisposableSingletonContainer.createAsyncInstanceWithoutConstructor`. -/
def DisposableSingletonContainer.createAsyncInstanceWithoutConstructor
    (st : DisposableSingletonContainer) (name : String)
    (typeConstructorFunction : List ℕ → Instance)
    (constructorFunctionArguments : Option (List ℕ)) (disposeSequence : Option ℤ) :
    CreateResult :=
  if (jsMapGet st.singletonContainer name).isSome then
    { calls := 0, st := st, result := jsMapGet st.singletonContainer name }
  else
    let newInstance := BootstrapConstructor.createAsyncInstanceWithoutConstructor
      typeConstructorFunction constructorFunctionArguments
    let st1 := (st.registerInstance name newInstance disposeSequence true).2
    { calls := 1, st := st1, result := jsMapGet st1.singletonContainer name }


/-- `DisposableSingletonContainer.fetchInstance`. -/
def DisposableSingletonContainer.fetchInstance (st : DisposableSingletonContainer)
    (name : String) : Option Instance :=
  jsMapGet st.singletonContainer name


/-- An observable release-hook invocation. -/
inductive DEvent where
  | syncCall : String → DEvent
  | asyncCall : String → DEvent
  deriving DecidableEq, Repr


/-- The resource name an event belongs to. -/
def DEvent.name : DEvent → String
  | DEvent.syncCall n => n
  | DEvent.asyncCall n => n


/-- The `disposeSequenceMap.forEach` cleanup inside `disposeInstance`: remove
`name` from every cohort set that contains it, dropping a cohort entry that
becomes empty.  (JS `Map.forEach` tolerates deleting the entry being
visited.) -/
def removeFromCohorts (dsm : List (ℤ × List String)) (name : String) :
    List (ℤ × List String) :=
  dsm.foldr (fun p acc =>
    if name ∈ p.2 then
      let trimmed := p.2.filter (fun m => decide (m ≠ name))
      if trimmed.isEmpty then acc else (p.1, trimmed) :: acc
    else p :: acc) []


/-- Invoke an optional release hook: the emitted event if the hook is
present, and whether it threw. -/
def invokeHook (ev : DEvent) : Option Bool → List DEvent × Bool
  | none => ([], false)
  | some fails => ([ev], fails)


/-- Result of a disposal run: the release-hook events that happened, the
container state reached (JavaScript mutations made before an exception
persist), and the exception, if one escaped. -/
structure DisposeResult where
  events : List DEvent
  st : DisposableSingletonContainer
  err : Option String
  deriving DecidableEq, Repr


/-- `DisposableSingletonContainer.disposeInstance(name)`: no-op when the name
is absent; otherwise the sync hook (if any) runs, then the async hook (if
any), then the name is removed from the container and from the cohort sets.
A hook that throws aborts immediately with the exception; the removal steps
after it do not run. -/
def DisposableSingletonContainer.disposeInstance (st : DisposableSingletonContainer)
    (name : String) : DisposeResult :=
  match jsMapGet st.singletonContainer name with
  | none => { events := [], st := st, err := none }
  | some inst =>
      let s := invokeHook (DEvent.syncCall name) inst.syncHook
      if s.2 then { events := s.1, st := st, err := some "dispose hook threw" }
      else
        let a := invokeHook (DEvent.asyncCall name) inst.asyncHook
        if a.2 then { events := s.1 ++ a.1, st := st, err := some "dispose hook threw" }
        else
          { events := s.1 ++ a.1,
            st := { singletonContainer := jsMapDelete st.singletonContainer name,
                    disposeSequenceMap := removeFromCohorts st.disposeSequenceMap name,
                    disposeSequence := st.disposeSequence },
            err := none }


/-- Sequentially dispose a list of names, stopping at the first exception
(the sequential `await this.disposeInstance(instanceName)` loop body). -/
def DisposableSingletonContainer.disposeNames (st : DisposableSingletonContainer) :
    List String → DisposeResult
  | [] => { events := [], st := st, err := none }
  | n :: rest =>
      let r := st.disposeInstance n
      match r.err with
      | some e => { events := r.events, st := r.st, err := some e }
      | none =>
          let r2 := r.st.disposeNames rest
          { events := r.events ++ r2.events, st := r2.st, err := r2.err }


/-- The outer loop of `disposeAll` over the pre-sorted cohort keys.  For each
cohort `for (const instanceName of (map.get(sequence) || new Set()))` fetches
the set at loop entry; since each disposal removes exactly the member being
visited, iterating that snapshot agrees with iterating the live JS Set. -/
def DisposableSingletonContainer.disposeSeqs (st : DisposableSingletonContainer) :
    List ℤ → DisposeResult
  | [] => { events := [], st := st, err := none }
  | s :: rest =>
      let members := (jsMapGet st.disposeSequenceMap s).getD []
      let r := st.disposeNames members
      match r.err with
      | some e => { events := r.events, st := r.st, err := some e }
      | none =>
          let r2 := r.st.disposeSeqs rest
          { events := r.events ++ r2.events, st := r2.st, err := r2.err }


/-- The cohort keys in the order `disposeAll` visits them:
`Array.from(map.keys()).sort((a, b) => b - a)` (descending). -/
def DisposableSingletonContainer.sortedCohorts (st : DisposableSingletonContainer) : List ℤ :=
  jsSortBy (fun a b => decide (b < a)) (jsMapKeys st.disposeSequenceMap)


/-- `DisposableSingletonContainer.disposeAll()`. -/
def DisposableSingletonContainer.disposeAll (st : DisposableSingletonContainer) :
    DisposeResult :=
  st.disposeSeqs st.sortedCohorts


/-- The name-by-name order in which `disposeAll` intends to dispose:
cohorts in descending numeric order, members in insertion order. -/
def DisposableSingletonContainer.disposalOrder (st : DisposableSingletonContainer) :
    List String :=
  st.sortedCohorts.flatMap (fun k => (jsMapGet st.disposeSequenceMap k).getD [])


/-- The release-hook events a full disposal of `inst` (registered under
`name`) produces: the sync event when `Symbol.dispose` is present, then the
async event when `Symbol.asyncDispose` is present. -/
def hookEvents (name : String) (inst : Instance) : List DEvent :=
  (match inst.syncHook with
   | some _ => [DEvent.syncCall name]
   | none => []) ++
  (match inst.asyncHook with
   | some _ => [DEvent.asyncCall name]
   | none => [])


/-- The events disposing `name` in state `st` produces (empty if absent). -/
def DisposableSingletonContainer.instanceEvents (st : DisposableSingletonContainer)
    (name : String) : List DEvent :=
  match jsMapGet st.singletonContainer name with
  | none => []
  | some inst => hookEvents name inst


/-- Both hooks of the instance succeed when invoked. -/
def Instance.hooksOk (inst : Instance) : Prop :=
  inst.syncHook ≠ some true ∧ inst.asyncHook ≠ some true


/-- Every instance held by the container has non-throwing hooks. -/
def DisposableSingletonContainer.hooksOk (st : DisposableSingletonContainer) : Prop :=
  ∀ p ∈ st.singletonContainer, p.2.hooksOk


/-- Structural invariant of container states reachable through the public
interface: no duplicate names or cohort keys, cohort sets are duplicate-free
and non-empty, a name lives in at most one cohort set, and every cohort
member is present in the name map. -/
def DisposableSingletonContainer.WF (st : DisposableSingletonContainer) : Prop :=
  (jsMapKeys st.singletonContainer).Nodup ∧
  (jsMapKeys st.disposeSequenceMap).Nodup ∧
  (∀ p ∈ st.disposeSequenceMap, p.2.Nodup ∧ p.2 ≠ []) ∧
  st.disposeSequenceMap.Pairwise (fun p q => ∀ n ∈ p.2, n ∉ q.2) ∧
  (∀ p ∈ st.disposeSequenceMap, ∀ n ∈ p.2, (jsMapGet st.singletonContainer n).isSome = true)


instance (inst : Instance) : Decidable inst.hooksOk := by
  unfold Instance.hooksOk
  infer_instance


instance (st : DisposableSingletonContainer) : Decidable st.hooksOk := by
  unfold DisposableSingletonContainer.hooksOk
  infer_instance


instance (st : DisposableSingletonContainer) : Decidable st.WF := by
  unfold DisposableSingletonContainer.WF
  infer_instance


/-! ### disposeInstance characterizations -/

/-- The state a successful `disposeInstance` of a present name reaches. -/
def DisposableSingletonContainer.afterDispose (st : DisposableSingletonContainer)
    (name : String) : DisposableSingletonContainer :=
  { singletonContainer := jsMapDelete st.singletonContainer name,
    disposeSequenceMap := removeFromCohorts st.disposeSequenceMap name,
    disposeSequence := st.disposeSequence }


/-- Create a fresh resource under each listed name, with no explicit cohort,
starting from a given container state. -/
def createFold (g : String → Instance) (st : DisposableSingletonContainer) :
    List String → DisposableSingletonContainer
  | [] => st
  | n :: rest => createFold g (st.createInstance n (fun _ => g n) none none).st rest


/-- `createFold` from the default-constructed container. -/
def createdState (g : String → Instance) (names : List String) :
    DisposableSingletonContainer :=
  createFold g DisposableSingletonContainer.empty names


/-- The cohort map produced by consecutive auto-assigned cohorts starting
above counter `c`: singleton cohorts with ascending keys. -/
def cohortTail (c : ℤ) : List String → List (ℤ × List String)
  | [] => []
  | n :: rest => (c + 1, [n]) :: cohortTail (c + 1) rest


/-- A concrete instance generator with benign hooks, for witnesses. -/
def witnessInstanceFn : String → Instance :=
  fun _ => { id := 0, syncHook := some false, asyncHook := some false }


/-- A generator whose resource "b" has a throwing sync hook and whose other
resources have benign hooks, for witnesses. -/
def mixedInstanceFn : String → Instance :=
  fun n => if n = "b" then { id := 1, syncHook := some true, asyncHook := none }
           else { id := 0, syncHook := some false, asyncHook := some false }


/-! ### C3: singleton caching across the three create entry points -/

/-- Which of the three create entry points a call uses. -/
inductive CreateKind where
  | viaConstructor
  | viaFunction
  | viaAsyncFunction
  deriving DecidableEq, Repr


/-- One create call for a fixed name: entry point, constructor/factory,
arguments, and cohort argument. -/
structure CreateCall where
  kind : CreateKind
  make : List ℕ → Instance
  args : Option (List ℕ)
  seq : Option ℤ


/-- The instance a call's constructor/factory builds when invoked
(`new ctor(...(args || []))` / `fn(...(args || []))`). -/
def CreateCall.built (c : CreateCall) : Instance :=
  c.make (c.args.getD [])


/-- Dispatch a create call to the corresponding container entry point. -/
def applyCreate (st : DisposableSingletonContainer) (name : String) (c : CreateCall) :
    CreateResult :=
  match c.kind with
  | CreateKind.viaConstructor => st.createInstance name c.make c.args c.seq
  | CreateKind.viaFunction => st.createInstanceWithoutConstructor name c.make c.args c.seq
  | CreateKind.viaAsyncFunction =>
      st.createAsyncInstanceWithoutConstructor name c.make c.args c.seq


/-- Run a sequence of create calls for one name, collecting the total number
of constructor/factory invocations, the final state, and each call's
returned instance. -/
def runCreateCalls (st : DisposableSingletonContainer) (name : String) :
    List CreateCall → ℕ × DisposableSingletonContainer × List (Option Instance)
  | [] => (0, st, [])
  | c :: rest =>
      let r := applyCreate st name c
      let rr := runCreateCalls r.st name rest
      (r.calls + rr.1, rr.2.1, r.result :: rr.2.2)


/-- Cohort 0 is absent and the auto-cohort counter is non-negative. -/
def noCohortZero (st : DisposableSingletonContainer) : Prop :=
  (0 : ℤ) ∉ jsMapKeys st.disposeSequenceMap ∧ 0 ≤ st.disposeSequence


/-- One public container operation. -/
inductive ContainerOp where
  | createOp (name : String) (make : List ℕ → Instance) (args : Option (List ℕ))
      (seq : Option ℤ)
  | createFnOp (name : String) (make : List ℕ → Instance) (args : Option (List ℕ))
      (seq : Option ℤ)
  | createAsyncOp (name : String) (make : List ℕ → Instance) (args : Option (List ℕ))
      (seq : Option ℤ)
  | registerOp (name : String) (inst : Instance) (seq : Option ℤ) (overrideExisting : Bool)
  | disposeOp (name : String)
  | disposeAllOp


/-- The container state reached by one public operation. -/
def runContainerOp (st : DisposableSingletonContainer) :
    ContainerOp → DisposableSingletonContainer
  | ContainerOp.createOp n mk a s => (st.createInstance n mk a s).st
  | ContainerOp.createFnOp n mk a s => (st.createInstanceWithoutConstructor n mk a s).st
  | ContainerOp.createAsyncOp n mk a s =>
      (st.createAsyncInstanceWithoutConstructor n mk a s).st
  | ContainerOp.registerOp n i s b => (st.registerInstance n i s b).2
  | ContainerOp.disposeOp n => (st.disposeInstance n).st
  | ContainerOp.disposeAllOp => st.disposeAll.st


/-- The container state reached by a sequence of public operations. -/
def runContainerOps (st : DisposableSingletonContainer) :
    List ContainerOp → DisposableSingletonContainer
  | [] => st
  | op :: rest => runContainerOps (runContainerOp st op) rest


/-! ### ApplicationBuilder lifecycle and health (modelled from the spec)

The repository snapshot only contains the earlier `K8SHealthStatus`-based
versions of `application-builder.ts`; the lifecycle-based
`ApplicationBuilder` that `index.ts`, the lifecycle enums, the probe files
and the examples refer to is not part of the snapshot. Its behaviour is
modelled from the specification below. -/

/-- Modelled from the spec: the lifecycle phases (`Unknown → Starting →
Up | Down`; `Stopping → Stopped`) of the missing lifecycle-based
`ApplicationBuilder`. -/
inductive LifecyclePhase where
  | Unknown
  | Starting
  | Up
  | Down
  | Stopping
  | Stopped
  deriving DecidableEq, Repr


/-- Modelled from the spec: a probe/handler result status (`UP`/`DOWN`). -/
inductive ProbeStatus where
  | up
  | down
  deriving DecidableEq, Repr


/-- Modelled from the spec: `checkHealth(stage)` of the missing
lifecycle-based `ApplicationBuilder` — the HTTP status code each health
query returns given the lifecycle phase and the pluggable probes' answers.
`"startup"`: 200 if the phase is `Up`, otherwise 503. `"readiness"`:
delegates to the readiness probe on `Up`/`Down`, is always 503 on
`Stopping`/`Stopped`, 500 on any other phase. `"liveliness"`: always
delegates to the liveness probe. Any unrecognized stage yields 500. -/
def checkHealth (phase : LifecyclePhase) (stage : String)
    (readinessProbe livenessProbe : ProbeStatus) : ℕ :=
  match stage with
  | "startup" => if phase = LifecyclePhase.Up then 200 else 503
  | "readiness" =>
      match phase with
      | LifecyclePhase.Up => if readinessProbe = ProbeStatus.up then 200 else 503
      | LifecyclePhase.Down => if readinessProbe = ProbeStatus.up then 200 else 503
      | LifecyclePhase.Stopping => 503
      | LifecyclePhase.Stopped => 503
      | _ => 500
  | "liveliness" => if livenessProbe = ProbeStatus.up then 200 else 503
  | _ => 500


/-- Modelled from the spec: the fixed well-known container name of the
health listener resource. -/
def healthListenerName : String := "healthListener"


/-- Modelled from the spec: the fixed well-known container name of the
primary (application) listener resource. -/
def applicationListenerName : String := "applicationListener"


/-- Modelled from the spec: the observable outcome of `start()` — the final
phase, the final container, the order in which listener resources were
created, and the container state at the moment the primary listener is
created. -/
structure StartOutcome where
  phase : LifecyclePhase
  container : DisposableSingletonContainer
  creationOrder : List String
  containerBeforePrimary : DisposableSingletonContainer


/-- Modelled from the spec: `start()` of the missing lifecycle-based
`ApplicationBuilder`. After the startup handler reports its status, on
`UP` the orchestrator instantiates, through the container under the fixed
well-known names, the health listener and then the primary listener (health
before primary); on any other status it transitions to `Down` and mounts no
listener. -/
def ApplicationBuilder.start (container : DisposableSingletonContainer)
    (handlerStatus : ProbeStatus) (healthListener applicationListener : Instance) :
    StartOutcome :=
  match handlerStatus with
  | ProbeStatus.up =>
      let c1 := (container.createAsyncInstanceWithoutConstructor healthListenerName
        (fun _ => healthListener) none none).st
      let c2 := (c1.createAsyncInstanceWithoutConstructor applicationListenerName
        (fun _ => applicationListener) none none).st
      { phase := LifecyclePhase.Up, container := c2,
        creationOrder := [healthListenerName, applicationListenerName],
        containerBeforePrimary := c1 }
  | ProbeStatus.down =>
      { phase := LifecyclePhase.Down, container := container,
        creationOrder := [], containerBeforePrimary := container }


/-! ### Basic lemmas about the JS collection models -/

theorem jsSortInsert_perm {α : Type} (lt : α → α → Bool) (a : α) (l : List α) :
    List.Perm (jsSortInsert lt a l) (a :: l) := by
  induction l with
  | nil => simp [jsSortInsert]
  | cons b t ih =>
      by_cases h : lt b a = true
      · simp only [jsSortInsert, h, if_true]
        exact ((ih.cons b).trans (List.Perm.swap a b t))
      · simp [jsSortInsert, h]


theorem jsSortBy_perm {α : Type} (lt : α → α → Bool) (l : List α) :
    List.Perm (jsSortBy lt l) l := by
  induction l with
  | nil => simp [jsSortBy]
  | cons a t ih => exact (jsSortInsert_perm lt a (jsSortBy lt t)).trans (ih.cons a)


theorem mem_keys_jsMapSet {K V : Type} [DecidableEq K] (m : List (K × V)) (k a : K) (v : V) :
    a ∈ jsMapKeys (jsMapSet m k v) ↔ a ∈ jsMapKeys m ∨ a = k := by
  induction m with
  | nil => simp [jsMapSet, jsMapKeys, eq_comm]
  | cons p t ih =>
      rw [jsMapSet]
      by_cases h : p.1 = k
      · rw [if_pos h]
        subst h
        simp only [jsMapKeys, List.map_cons, List.mem_cons]
        tauto
      · rw [if_neg h]
        simp only [jsMapKeys, List.map_cons, List.mem_cons] at ih ⊢
        tauto


theorem jsMapGet_none_of_not_mem_keys {K V : Type} [DecidableEq K] (m : List (K × V)) (k : K)
    (h : k ∉ jsMapKeys m) : jsMapGet m k = none := by
  induction m with
  | nil => rfl
  | cons p t ih =>
      simp only [jsMapKeys, List.map_cons, List.mem_cons, not_or] at h
      rw [jsMapGet, if_neg (fun he : p.1 = k => h.1 he.symm)]
      exact ih h.2


/-! ### C1 / C8 / C10: SortedMap claims -/

/-- C1: the claim states that `set(key, value)` with the order omitted
always succeeds and assigns `++maxOrder`.  In the code the validation guard
`Number.isNaN(order) || !Number.isSafeInteger(order)` is true for
`order === undefined` (because `Number.isSafeInteger(undefined)` is false),
so every such call throws and the `order = ++this.maxOrder` branch is dead
code: the code contradicts its own signature (`order` defaults to
`undefined`) and the spec's stated intent.  This theorem evaluates the
embedded code at the failing input, for every state. -/
theorem C1_set_without_order_always_throws {V : Type} (s : SortedMap V) (key : String)
    (value : Option V) :
    s.set key value none = Except.error "Order must be a valid 32 bit finite number" := rfl


/-- C8: for every order argument that is non-finite or not a safe integer,
`SortedMap.set` fails with the validation error (and, the embedding being
functional, no state is produced: the registry is unchanged). -/
theorem C8_invalid_order_set_errors {V : Type} (s : SortedMap V) (key : String)
    (value : Option V) (o : JSNum)
    (h : jsIsFinite o = false ∨ jsIsSafeInteger (some o) = false) :
    s.set key value (some o) = Except.error "Order must be a valid 32 bit finite number" := by
  have hguard : (jsIsNaN (some o) || !jsIsSafeInteger (some o)) = true := by
    rcases h with h | h
    · cases o with
      | nan => rfl
      | inf b => rfl
      | num q => simp [jsIsFinite] at h
    · simp [h]
  simp [SortedMap.set, hguard]


/-- Witness for C8 at the concrete non-finite input `NaN`. -/
theorem C8_invalid_order_set_errors_witness :
    (jsIsFinite JSNum.nan = false ∨ jsIsSafeInteger (some JSNum.nan) = false) ∧
    (SortedMap.empty (V := ℕ)).set "k" (some 5) (some JSNum.nan)
      = Except.error "Order must be a valid 32 bit finite number" :=
  ⟨Or.inl rfl, C8_invalid_order_set_errors SortedMap.empty "k" (some 5) JSNum.nan (Or.inl rfl)⟩


theorem sort_foldl_mem_keys {V : Type} (mp : List (String × Option V))
    (l : List (String × ℤ)) (acc : List (String × V)) (k : String) :
    k ∈ jsMapKeys (l.foldl (fun acc kv =>
        match jsMapGetJoin mp kv.1 with
        | none => acc
        | some v => jsMapSet acc kv.1 v) acc)
      ↔ k ∈ jsMapKeys acc ∨ (k ∈ jsMapKeys l ∧ jsMapGetJoin mp k ≠ none) := by
  induction l generalizing acc with
  | nil => simp [jsMapKeys]
  | cons kv t ih =>
      simp only [List.foldl_cons]
      rcases hv : jsMapGetJoin mp kv.1 with _ | v
      · rw [ih]
        simp only [jsMapKeys, List.map_cons, List.mem_cons]
        constructor
        · rintro (ha | ⟨hm, hne⟩)
          · exact Or.inl ha
          · exact Or.inr ⟨Or.inr hm, hne⟩
        · rintro (ha | ⟨(rfl | hm), hne⟩)
          · exact Or.inl ha
          · exact absurd hv hne
          · exact Or.inr ⟨hm, hne⟩
      · rw [ih]
        rw [mem_keys_jsMapSet]
        simp only [jsMapKeys, List.map_cons, List.mem_cons]
        constructor
        · rintro ((ha | rfl) | ⟨hm, hne⟩)
          · exact Or.inl ha
          · exact Or.inr ⟨Or.inl rfl, by simp [hv]⟩
          · exact Or.inr ⟨Or.inr hm, hne⟩
        · rintro (ha | ⟨(rfl | hm), hne⟩)
          · exact Or.inl (Or.inl ha)
          · exact Or.inl (Or.inr rfl)
          · exact Or.inr ⟨hm, hne⟩


/-- C10: `sort()` returns exactly the keys of `sortedKeys` whose looked-up
value is not `undefined`; in particular a key set with value `undefined`
(`none`) silently disappears from the sorted view. -/
theorem C10_sort_omits_undefined_values {V : Type} (s : SortedMap V) (k : String) :
    k ∈ jsMapKeys s.sort ↔
      (k ∈ jsMapKeys s.sortedKeys ∧ jsMapGetJoin s.map k ≠ none) := by
  unfold SortedMap.sort
  rw [sort_foldl_mem_keys]
  have hperm : k ∈ jsMapKeys (jsSortBy (fun a b => decide (a.2 < b.2)) s.sortedKeys)
      ↔ k ∈ jsMapKeys s.sortedKeys := by
    unfold jsMapKeys
    exact ((jsSortBy_perm _ s.sortedKeys).map Prod.fst).mem_iff
  constructor
  · rintro (h0 | hp)
    · simp [jsMapKeys] at h0
    · exact ⟨hperm.mp hp.1, hp.2⟩
  · intro hp
    exact Or.inr ⟨hperm.mpr hp.1, hp.2⟩


/-! ### Lemmas about the JS map model -/

theorem jsMapGet_jsMapSet_self {K V : Type} [DecidableEq K] (m : List (K × V)) (k : K) (v : V) :
    jsMapGet (jsMapSet m k v) k = some v := by
  induction m with
  | nil => simp [jsMapSet, jsMapGet]
  | cons p t ih =>
      rw [jsMapSet]
      by_cases h : p.1 = k
      · rw [if_pos h, jsMapGet, if_pos rfl]
      · rw [if_neg h, jsMapGet, if_neg h]
        exact ih


theorem jsMapGet_jsMapSet_ne {K V : Type} [DecidableEq K] (m : List (K × V)) (k a : K) (v : V)
    (hne : k ≠ a) : jsMapGet (jsMapSet m k v) a = jsMapGet m a := by
  induction m with
  | nil => simp [jsMapSet, jsMapGet, hne]
  | cons p t ih =>
      rw [jsMapSet]
      by_cases h : p.1 = k
      · rw [if_pos h, jsMapGet, jsMapGet, if_neg (h ▸ hne), if_neg (fun hpa => hne (h ▸ hpa))]
      · rw [if_neg h, jsMapGet, jsMapGet]
        by_cases h2 : p.1 = a
        · rw [if_pos h2, if_pos h2]
        · rw [if_neg h2, if_neg h2]
          exact ih


theorem jsMapGet_jsMapDelete_self {K V : Type} [DecidableEq K] (m : List (K × V)) (k : K) :
    jsMapGet (jsMapDelete m k) k = none := by
  induction m with
  | nil => rfl
  | cons p t ih =>
      simp only [jsMapDelete] at ih ⊢
      rw [List.filter_cons]
      by_cases h : p.1 = k
      · rw [if_neg (by simp [h])]
        exact ih
      · rw [if_pos (by simp [h]), jsMapGet, if_neg h]
        exact ih


theorem jsMapGet_jsMapDelete_ne {K V : Type} [DecidableEq K] (m : List (K × V)) (k a : K)
    (hne : a ≠ k) : jsMapGet (jsMapDelete m k) a = jsMapGet m a := by
  induction m with
  | nil => rfl
  | cons p t ih =>
      simp only [jsMapDelete] at ih ⊢
      rw [List.filter_cons]
      by_cases h : p.1 = k
      · have hpa : ¬ p.1 = a := fun hh => hne (by rw [← hh, h])
        rw [if_neg (by simp [h])]
        calc jsMapGet (List.filter (fun p => decide (p.1 ≠ k)) t) a
            = jsMapGet t a := ih
          _ = jsMapGet (p :: t) a := by rw [jsMapGet, if_neg hpa]
      · rw [if_pos (by simp [h]), jsMapGet, jsMapGet]
        by_cases h2 : p.1 = a
        · rw [if_pos h2, if_pos h2]
        · rw [if_neg h2, if_neg h2]
          exact ih


theorem jsMapKeys_jsMapDelete_sublist {K V : Type} [DecidableEq K] (m : List (K × V)) (k : K) :
    List.Sublist (jsMapKeys (jsMapDelete m k)) (jsMapKeys m) := by
  unfold jsMapKeys jsMapDelete
  exact (List.filter_sublist m).map (fun p => p.1)


theorem jsMapKeys_cons {K V : Type} (p : K × V) (t : List (K × V)) :
    jsMapKeys (p :: t) = p.1 :: jsMapKeys t := rfl


theorem jsMapGet_eq_none_iff {K V : Type} [DecidableEq K] (m : List (K × V)) (k : K) :
    jsMapGet m k = none ↔ k ∉ jsMapKeys m := by
  induction m with
  | nil => simp [jsMapGet, jsMapKeys]
  | cons p t ih =>
      rw [jsMapGet, jsMapKeys_cons]
      by_cases h : p.1 = k
      · simp [h]
      · rw [if_neg h, List.mem_cons]
        rw [ih]
        constructor
        · rintro hnm (rfl | hm)
          · exact h rfl
          · exact hnm hm
        · intro hor
          exact fun hm => hor (Or.inr hm)


theorem removeFromCohorts_cons (p : ℤ × List String) (t : List (ℤ × List String))
    (name : String) :
    removeFromCohorts (p :: t) name =
      if name ∈ p.2 then
        (if (p.2.filter (fun m => decide (m ≠ name))).isEmpty then removeFromCohorts t name
         else (p.1, p.2.filter (fun m => decide (m ≠ name))) :: removeFromCohorts t name)
      else p :: removeFromCohorts t name := rfl


theorem jsMapKeys_removeFromCohorts_sublist (dsm : List (ℤ × List String)) (name : String) :
    List.Sublist (jsMapKeys (removeFromCohorts dsm name)) (jsMapKeys dsm) := by
  induction dsm with
  | nil => simp [removeFromCohorts, jsMapKeys]
  | cons p t ih =>
      rw [removeFromCohorts_cons, jsMapKeys_cons]
      by_cases h : name ∈ p.2
      · rw [if_pos h]
        by_cases he : (p.2.filter (fun m => decide (m ≠ name))).isEmpty
        · rw [if_pos he]
          exact ih.trans (List.sublist_cons_self _ _)
        · rw [if_neg he, jsMapKeys_cons]
          exact ih.cons₂ _
      · rw [if_neg h, jsMapKeys_cons]
        exact ih.cons₂ _


theorem mem_removeFromCohorts (dsm : List (ℤ × List String)) (name : String)
    (q : ℤ × List String) (hq : q ∈ removeFromCohorts dsm name) :
    ∃ p ∈ dsm, q.1 = p.1 ∧
      ((q.2 = p.2 ∧ name ∉ p.2) ∨
       (q.2 = p.2.filter (fun m => decide (m ≠ name)) ∧ name ∈ p.2 ∧ q.2.isEmpty = false)) := by
  induction dsm with
  | nil => simp [removeFromCohorts] at hq
  | cons p t ih =>
      rw [removeFromCohorts_cons] at hq
      by_cases h : name ∈ p.2
      · rw [if_pos h] at hq
        by_cases he : (p.2.filter (fun m => decide (m ≠ name))).isEmpty
        · rw [if_pos he] at hq
          obtain ⟨r, hr, h1, h2⟩ := ih hq
          exact ⟨r, List.mem_cons_of_mem p hr, h1, h2⟩
        · rw [if_neg he] at hq
          rcases List.mem_cons.mp hq with rfl | hq2
          · exact ⟨p, List.mem_cons_self p t, rfl,
              Or.inr ⟨rfl, h, Bool.eq_false_iff.mpr he⟩⟩
          · obtain ⟨r, hr, h1, h2⟩ := ih hq2
            exact ⟨r, List.mem_cons_of_mem p hr, h1, h2⟩
      · rw [if_neg h] at hq
        rcases List.mem_cons.mp hq with heq | hq2
        · exact ⟨p, List.mem_cons_self p t, by rw [heq], Or.inl ⟨by rw [heq], h⟩⟩
        · obtain ⟨r, hr, h1, h2⟩ := ih hq2
          exact ⟨r, List.mem_cons_of_mem p hr, h1, h2⟩


theorem jsMapGet_removeFromCohorts_of_none (dsm : List (ℤ × List String)) (name : String)
    (k : ℤ) (h : jsMapGet dsm k = none) :
    jsMapGet (removeFromCohorts dsm name) k = none := by
  rw [jsMapGet_eq_none_iff] at h ⊢
  exact fun hm => h ((jsMapKeys_removeFromCohorts_sublist dsm name).subset hm)


theorem jsMapGet_removeFromCohorts_of_not_mem (dsm : List (ℤ × List String)) (name : String)
    (k : ℤ) (set : List String) (hg : jsMapGet dsm k = some set) (hni : name ∉ set) :
    jsMapGet (removeFromCohorts dsm name) k = some set := by
  induction dsm with
  | nil => simp [jsMapGet] at hg
  | cons p t ih =>
      rw [jsMapGet] at hg
      rw [removeFromCohorts_cons]
      by_cases hk : p.1 = k
      · rw [if_pos hk] at hg
        have hset : p.2 = set := Option.some_injective _ hg
        rw [if_neg (hset ▸ hni), jsMapGet, if_pos hk, hset]
      · rw [if_neg hk] at hg
        by_cases h : name ∈ p.2
        · rw [if_pos h]
          by_cases he : (p.2.filter (fun m => decide (m ≠ name))).isEmpty
          · rw [if_pos he]
            exact ih hg
          · rw [if_neg he, jsMapGet, if_neg hk]
            exact ih hg
        · rw [if_neg h, jsMapGet, if_neg hk]
          exact ih hg


theorem jsMapGet_removeFromCohorts_of_mem (dsm : List (ℤ × List String)) (name : String)
    (k : ℤ) (set : List String) (hnd : (jsMapKeys dsm).Nodup)
    (hg : jsMapGet dsm k = some set) (hin : name ∈ set) :
    jsMapGet (removeFromCohorts dsm name) k =
      (if (set.filter (fun m => decide (m ≠ name))).isEmpty then none
       else some (set.filter (fun m => decide (m ≠ name)))) := by
  induction dsm with
  | nil => simp [jsMapGet] at hg
  | cons p t ih =>
      rw [jsMapKeys_cons, List.nodup_cons] at hnd
      rw [jsMapGet] at hg
      rw [removeFromCohorts_cons]
      by_cases hk : p.1 = k
      · rw [if_pos hk] at hg
        have hset : p.2 = set := Option.some_injective _ hg
        subst hset
        rw [if_pos hin]
        by_cases he : (p.2.filter (fun m => decide (m ≠ name))).isEmpty
        · rw [if_pos he, if_pos he]
          rw [jsMapGet_eq_none_iff]
          intro hm
          exact hnd.1 (hk ▸ (jsMapKeys_removeFromCohorts_sublist t name).subset hm)
        · rw [if_neg he, if_neg he, jsMapGet, if_pos hk]
      · rw [if_neg hk] at hg
        by_cases h : name ∈ p.2
        · rw [if_pos h]
          by_cases he : (p.2.filter (fun m => decide (m ≠ name))).isEmpty
          · rw [if_pos he]
            exact ih hnd.2 hg
          · rw [if_neg he, jsMapGet, if_neg hk]
            exact ih hnd.2 hg
        · rw [if_neg h, jsMapGet, if_neg hk]
          exact ih hnd.2 hg


theorem disposeInstance_absent (st : DisposableSingletonContainer) (name : String)
    (h : jsMapGet st.singletonContainer name = none) :
    st.disposeInstance name = { events := [], st := st, err := none } := by
  unfold DisposableSingletonContainer.disposeInstance
  rw [h]


theorem hook_cases_of_ne_some_true (o : Option Bool) (h : o ≠ some true) :
    o = none ∨ o = some false := by
  rcases ho : o with _ | b
  · exact Or.inl rfl
  · cases b
    · exact Or.inr rfl
    · exact absurd ho h


theorem disposeInstance_ok (st : DisposableSingletonContainer) (name : String)
    (inst : Instance) (h : jsMapGet st.singletonContainer name = some inst)
    (hok : inst.hooksOk) :
    st.disposeInstance name =
      { events := hookEvents name inst, st := st.afterDispose name, err := none } := by
  unfold DisposableSingletonContainer.disposeInstance
  rw [h]
  rcases hook_cases_of_ne_some_true inst.syncHook hok.1 with hsy | hsy <;>
    rcases hook_cases_of_ne_some_true inst.asyncHook hok.2 with has | has <;>
      simp [invokeHook, hookEvents, hsy, has, DisposableSingletonContainer.afterDispose]


theorem disposeInstance_sync_fails (st : DisposableSingletonContainer) (name : String)
    (inst : Instance) (h : jsMapGet st.singletonContainer name = some inst)
    (hf : inst.syncHook = some true) :
    st.disposeInstance name =
      { events := [DEvent.syncCall name], st := st, err := some "dispose hook threw" } := by
  unfold DisposableSingletonContainer.disposeInstance
  rw [h]
  simp [invokeHook, hf]


theorem disposeInstance_async_fails (st : DisposableSingletonContainer) (name : String)
    (inst : Instance) (h : jsMapGet st.singletonContainer name = some inst)
    (hs : inst.syncHook ≠ some true) (hf : inst.asyncHook = some true) :
    st.disposeInstance name =
      { events := (invokeHook (DEvent.syncCall name) inst.syncHook).1
          ++ [DEvent.asyncCall name],
        st := st, err := some "dispose hook threw" } := by
  unfold DisposableSingletonContainer.disposeInstance
  rw [h]
  rcases hook_cases_of_ne_some_true inst.syncHook hs with hsy | hsy <;>
    simp [invokeHook, hf, hsy]


theorem mem_hookEvents_name (nm : String) (inst : Instance) (e : DEvent)
    (he : e ∈ hookEvents nm inst) : e.name = nm := by
  rcases hs : inst.syncHook with _ | b <;> rcases ha : inst.asyncHook with _ | c <;>
    simp [hookEvents, hs, ha] at he
  · rw [he]
    rfl
  · rw [he]
    rfl
  · rcases he with rfl | rfl <;> rfl


theorem mem_instanceEvents_name (st : DisposableSingletonContainer) (nm : String) (e : DEvent)
    (he : e ∈ st.instanceEvents nm) : e.name = nm := by
  unfold DisposableSingletonContainer.instanceEvents at he
  rcases hg : jsMapGet st.singletonContainer nm with _ | inst
  · rw [hg] at he
    simp at he
  · rw [hg] at he
    exact mem_hookEvents_name nm inst e he


/-- On states whose cohort sets are all non-empty, the cleanup loop acts as a
map-then-drop-empties transformation. -/
theorem removeFromCohorts_eq_of_nonempty (dsm : List (ℤ × List String)) (name : String)
    (h : ∀ p ∈ dsm, p.2 ≠ []) :
    removeFromCohorts dsm name =
      (dsm.map (fun p => (p.1, p.2.filter (fun m => decide (m ≠ name))))).filter
        (fun p => !p.2.isEmpty) := by
  induction dsm with
  | nil => rfl
  | cons p t ih =>
      rw [removeFromCohorts_cons, List.map_cons, List.filter_cons]
      have ht : ∀ q ∈ t, q.2 ≠ [] := fun q hq => h q (List.mem_cons_of_mem p hq)
      by_cases hin : name ∈ p.2
      · by_cases he : (p.2.filter (fun m => decide (m ≠ name))).isEmpty
        · rw [if_pos hin, if_pos he, if_neg (by simp [List.isEmpty_iff] at he ⊢; exact he)]
          exact ih ht
        · rw [if_pos hin, if_neg he, if_pos (by simp [List.isEmpty_iff] at he ⊢; exact he)]
          rw [ih ht]
      · have hfe : p.2.filter (fun m => decide (m ≠ name)) = p.2 :=
          List.filter_eq_self.mpr (fun a ha => by
            simp only [decide_eq_true_eq]
            exact fun hae => hin (hae ▸ ha))
        rw [if_neg hin,
          if_pos (by rw [hfe]; simp [List.isEmpty_iff]; exact h p (List.mem_cons_self p t))]
        rw [hfe, ih ht]


theorem WF_afterDispose (st : DisposableSingletonContainer) (name : String)
    (hWF : st.WF) : (st.afterDispose name).WF := by
  obtain ⟨h1, h2, h3, h4, h5⟩ := hWF
  refine ⟨?_, ?_, ?_, ?_, ?_⟩
  · exact h1.sublist (jsMapKeys_jsMapDelete_sublist st.singletonContainer name)
  · exact h2.sublist (jsMapKeys_removeFromCohorts_sublist st.disposeSequenceMap name)
  · intro q hq
    obtain ⟨p, hp, _, hcase⟩ := mem_removeFromCohorts st.disposeSequenceMap name q hq
    rcases hcase with ⟨hq2, _⟩ | ⟨hq2, _, hne⟩
    · exact hq2 ▸ h3 p hp
    · refine ⟨hq2 ▸ (h3 p hp).1.filter _, ?_⟩
      intro hemp
      rw [hemp] at hne
      simp at hne
  · show List.Pairwise (fun p q => ∀ n ∈ p.2, n ∉ q.2)
      (removeFromCohorts st.disposeSequenceMap name)
    rw [removeFromCohorts_eq_of_nonempty st.disposeSequenceMap name
      (fun p hp => (h3 p hp).2)]
    refine List.Pairwise.sublist (List.filter_sublist _) ?_
    refine List.Pairwise.map _ ?_ h4
    intro a b hab n hn
    intro hnb
    exact hab n (List.mem_of_mem_filter hn) (List.mem_of_mem_filter hnb)
  · intro q hq n hn
    obtain ⟨p, hp, _, hcase⟩ := mem_removeFromCohorts st.disposeSequenceMap name q hq
    have hnp : n ∈ p.2 ∧ n ≠ name := by
      rcases hcase with ⟨hq2, hnin⟩ | ⟨hq2, _, _⟩
      · exact ⟨hq2 ▸ hn, fun he => hnin (he ▸ hq2 ▸ hn)⟩
      · rw [hq2] at hn
        refine ⟨List.mem_of_mem_filter hn, ?_⟩
        have := List.of_mem_filter hn
        simpa using this
    show (jsMapGet (jsMapDelete st.singletonContainer name) n).isSome = true
    rw [jsMapGet_jsMapDelete_ne st.singletonContainer name n hnp.2]
    exact h5 p hp n hnp.1


theorem hooksOk_afterDispose (st : DisposableSingletonContainer) (name : String)
    (h : st.hooksOk) : (st.afterDispose name).hooksOk := by
  intro p hp
  exact h p (List.mem_of_mem_filter hp)


/-! ### disposeNames / disposeSeqs run lemmas -/

theorem disposeNames_cons (st : DisposableSingletonContainer) (n : String)
    (rest : List String) :
    st.disposeNames (n :: rest) =
      (match (st.disposeInstance n).err with
       | some e =>
           { events := (st.disposeInstance n).events,
             st := (st.disposeInstance n).st, err := some e }
       | none =>
           { events := (st.disposeInstance n).events
               ++ ((st.disposeInstance n).st.disposeNames rest).events,
             st := ((st.disposeInstance n).st.disposeNames rest).st,
             err := ((st.disposeInstance n).st.disposeNames rest).err }) := rfl


theorem disposeSeqs_cons (st : DisposableSingletonContainer) (s : ℤ) (rest : List ℤ) :
    st.disposeSeqs (s :: rest) =
      (match (st.disposeNames ((jsMapGet st.disposeSequenceMap s).getD [])).err with
       | some e =>
           { events := (st.disposeNames ((jsMapGet st.disposeSequenceMap s).getD [])).events,
             st := (st.disposeNames ((jsMapGet st.disposeSequenceMap s).getD [])).st,
             err := some e }
       | none =>
           { events := (st.disposeNames ((jsMapGet st.disposeSequenceMap s).getD [])).events
               ++ ((st.disposeNames
                     ((jsMapGet st.disposeSequenceMap s).getD [])).st.disposeSeqs rest).events,
             st := ((st.disposeNames
                     ((jsMapGet st.disposeSequenceMap s).getD [])).st.disposeSeqs rest).st,
             err := ((st.disposeNames
                     ((jsMapGet st.disposeSequenceMap s).getD [])).st.disposeSeqs rest).err }) :=
  rfl


theorem flatMap_eq_of_eq_on {α β : Type} (l : List α) (f g : α → List β)
    (h : ∀ a ∈ l, f a = g a) : l.flatMap f = l.flatMap g := by
  induction l with
  | nil => rfl
  | cons a t ih =>
      rw [List.flatMap_cons, List.flatMap_cons, h a (List.mem_cons_self a t),
        ih (fun b hb => h b (List.mem_cons_of_mem a hb))]


theorem disposeNames_cons_err (st : DisposableSingletonContainer) (n : String)
    (rest : List String) (e : String) (herr : (st.disposeInstance n).err = some e) :
    st.disposeNames (n :: rest) =
      { events := (st.disposeInstance n).events,
        st := (st.disposeInstance n).st, err := some e } := by
  rw [disposeNames_cons, herr]


theorem disposeNames_cons_ok (st : DisposableSingletonContainer) (n : String)
    (rest : List String) (herr : (st.disposeInstance n).err = none) :
    st.disposeNames (n :: rest) =
      { events := (st.disposeInstance n).events
          ++ ((st.disposeInstance n).st.disposeNames rest).events,
        st := ((st.disposeInstance n).st.disposeNames rest).st,
        err := ((st.disposeInstance n).st.disposeNames rest).err } := by
  rw [disposeNames_cons, herr]


theorem disposeNames_append_err (st : DisposableSingletonContainer) (l1 l2 : List String)
    (e : String) (h : (st.disposeNames l1).err = some e) :
    st.disposeNames (l1 ++ l2) = st.disposeNames l1 := by
  induction l1 generalizing st with
  | nil => simp [DisposableSingletonContainer.disposeNames] at h
  | cons n t ih =>
      rcases herr : (st.disposeInstance n).err with _ | e2
      · rw [disposeNames_cons_ok st n t herr] at h
        replace h : (((st.disposeInstance n).st).disposeNames t).err = some e := h
        rw [List.cons_append, disposeNames_cons_ok st n (t ++ l2) herr,
          disposeNames_cons_ok st n t herr, ih (st.disposeInstance n).st h]
      · rw [List.cons_append, disposeNames_cons_err st n (t ++ l2) e2 herr,
          disposeNames_cons_err st n t e2 herr]


theorem disposeNames_append_ok (st : DisposableSingletonContainer) (l1 l2 : List String)
    (h : (st.disposeNames l1).err = none) :
    st.disposeNames (l1 ++ l2) =
      { events := (st.disposeNames l1).events
          ++ ((st.disposeNames l1).st.disposeNames l2).events,
        st := ((st.disposeNames l1).st.disposeNames l2).st,
        err := ((st.disposeNames l1).st.disposeNames l2).err } := by
  induction l1 generalizing st with
  | nil => simp [DisposableSingletonContainer.disposeNames]
  | cons n t ih =>
      rcases herr : (st.disposeInstance n).err with _ | e2
      · rw [disposeNames_cons_ok st n t herr] at h
        replace h : (((st.disposeInstance n).st).disposeNames t).err = none := h
        rw [List.cons_append, disposeNames_cons_ok st n (t ++ l2) herr,
          disposeNames_cons_ok st n t herr, ih (st.disposeInstance n).st h]
        simp [List.append_assoc]
      · rw [disposeNames_cons_err st n t e2 herr] at h
        simp at h


theorem disposeNames_ok_run (st : DisposableSingletonContainer) (names : List String)
    (hnd : names.Nodup)
    (hpres : ∀ n ∈ names,
      ∃ inst, jsMapGet st.singletonContainer n = some inst ∧ inst.hooksOk) :
    (st.disposeNames names).events = names.flatMap st.instanceEvents ∧
    (st.disposeNames names).err = none ∧
    (∀ m, m ∉ names →
      jsMapGet (st.disposeNames names).st.singletonContainer m
        = jsMapGet st.singletonContainer m) := by
  induction names generalizing st with
  | nil => exact ⟨rfl, rfl, fun m _ => rfl⟩
  | cons n rest ih =>
      obtain ⟨inst, hg, hok⟩ := hpres n (List.mem_cons_self n rest)
      have hstep := disposeInstance_ok st n inst hg hok
      have hnin := (List.nodup_cons.mp hnd).1
      have hnd' := (List.nodup_cons.mp hnd).2
      have hpre : ∀ m, m ≠ n →
          jsMapGet (st.afterDispose n).singletonContainer m
            = jsMapGet st.singletonContainer m :=
        fun m hm => jsMapGet_jsMapDelete_ne st.singletonContainer n m hm
      have hpres' : ∀ m ∈ rest,
          ∃ i2, jsMapGet (st.afterDispose n).singletonContainer m = some i2 ∧ i2.hooksOk := by
        intro m hm
        obtain ⟨i2, hg2, hok2⟩ := hpres m (List.mem_cons_of_mem n hm)
        refine ⟨i2, ?_, hok2⟩
        rw [hpre m (fun he => hnin (he ▸ hm))]
        exact hg2
      obtain ⟨e1, e2, e3⟩ := ih (st.afterDispose n) hnd' hpres'
      rw [disposeNames_cons]
      simp only [hstep]
      refine ⟨?_, e2, ?_⟩
      · rw [e1, List.flatMap_cons]
        have hfirst : st.instanceEvents n = hookEvents n inst := by
          unfold DisposableSingletonContainer.instanceEvents
          rw [hg]
        rw [hfirst]
        have hrest : rest.flatMap (st.afterDispose n).instanceEvents
            = rest.flatMap st.instanceEvents := by
          refine flatMap_eq_of_eq_on rest _ _ ?_
          intro m hm
          unfold DisposableSingletonContainer.instanceEvents
          rw [hpre m (fun he => hnin (he ▸ hm))]
        rw [hrest]
      · intro m hm
        rw [e3 m (fun hmr => hm (List.mem_cons_of_mem n hmr)),
          hpre m (fun he => hm (he ▸ List.mem_cons_self n rest))]


theorem mem_of_jsMapGet_eq_some {K V : Type} [DecidableEq K] (m : List (K × V)) (k : K)
    (v : V) (h : jsMapGet m k = some v) : (k, v) ∈ m := by
  induction m with
  | nil => simp [jsMapGet] at h
  | cons p t ih =>
      rw [jsMapGet] at h
      by_cases hk : p.1 = k
      · rw [if_pos hk] at h
        have hpv : p = (k, v) := by
          obtain ⟨p1, p2⟩ := p
          simp only at hk
          simp only [Option.some.injEq] at h
          rw [hk, h]
        rw [← hpv]
        exact List.mem_cons_self p t
      · rw [if_neg hk] at h
        exact List.mem_cons_of_mem p (ih h)


theorem WF_disjoint (st : DisposableSingletonContainer) (hWF : st.WF) (j k : ℤ)
    (sj sk : List String) (hj : jsMapGet st.disposeSequenceMap j = some sj)
    (hk : jsMapGet st.disposeSequenceMap k = some sk) (hne : j ≠ k)
    (n : String) (hn : n ∈ sk) : n ∉ sj := by
  have hmj := mem_of_jsMapGet_eq_some _ _ _ hj
  have hmk := mem_of_jsMapGet_eq_some _ _ _ hk
  have hpw : List.Pairwise (fun p q : ℤ × List String =>
      ∀ m, ¬(m ∈ p.2 ∧ m ∈ q.2)) st.disposeSequenceMap := by
    refine hWF.2.2.2.1.imp ?_
    intro p q hpq m hm
    exact hpq m hm.1 hm.2
  have hsymm : Symmetric (fun p q : ℤ × List String => ∀ m, ¬(m ∈ p.2 ∧ m ∈ q.2)) := by
    intro p q hpq m hm
    exact hpq m ⟨hm.2, hm.1⟩
  have hR := hpw.forall hsymm hmj hmk
    (fun he => hne (congrArg Prod.fst he))
  intro hn2
  exact hR n ⟨hn2, hn⟩


theorem disposeInstance_hooksOk_of_err_none (st : DisposableSingletonContainer) (n : String)
    (inst : Instance) (hg : jsMapGet st.singletonContainer n = some inst)
    (herr : (st.disposeInstance n).err = none) : inst.hooksOk := by
  constructor
  · intro hsy
    rw [disposeInstance_sync_fails st n inst hg hsy] at herr
    simp at herr
  · intro has
    by_cases hsy : inst.syncHook = some true
    · rw [disposeInstance_sync_fails st n inst hg hsy] at herr
      simp at herr
    · rw [disposeInstance_async_fails st n inst hg hsy has] at herr
      simp at herr


theorem disposeSeqs_cons_err (st : DisposableSingletonContainer) (s : ℤ) (rest : List ℤ)
    (e : String)
    (herr : (st.disposeNames ((jsMapGet st.disposeSequenceMap s).getD [])).err = some e) :
    st.disposeSeqs (s :: rest) =
      { events := (st.disposeNames ((jsMapGet st.disposeSequenceMap s).getD [])).events,
        st := (st.disposeNames ((jsMapGet st.disposeSequenceMap s).getD [])).st,
        err := some e } := by
  rw [disposeSeqs_cons, herr]


theorem disposeSeqs_cons_ok (st : DisposableSingletonContainer) (s : ℤ) (rest : List ℤ)
    (herr : (st.disposeNames ((jsMapGet st.disposeSequenceMap s).getD [])).err = none) :
    st.disposeSeqs (s :: rest) =
      { events := (st.disposeNames ((jsMapGet st.disposeSequenceMap s).getD [])).events
          ++ ((st.disposeNames
                ((jsMapGet st.disposeSequenceMap s).getD [])).st.disposeSeqs rest).events,
        st := ((st.disposeNames
                ((jsMapGet st.disposeSequenceMap s).getD [])).st.disposeSeqs rest).st,
        err := ((st.disposeNames
                ((jsMapGet st.disposeSequenceMap s).getD [])).st.disposeSeqs rest).err } := by
  rw [disposeSeqs_cons, herr]


/-- Draining one cohort: when the disposal of all members of cohort `k`
succeeds, the cohort entry disappears, every other cohort entry is untouched,
and the invariant is preserved. -/
theorem disposeNames_cohort_drain (k : ℤ) (ms : List String) :
    ∀ (st : DisposableSingletonContainer), st.WF →
    jsMapGet st.disposeSequenceMap k = some ms →
    (st.disposeNames ms).err = none →
    ((∀ j, j ≠ k → jsMapGet (st.disposeNames ms).st.disposeSequenceMap j
        = jsMapGet st.disposeSequenceMap j) ∧
     jsMapGet (st.disposeNames ms).st.disposeSequenceMap k = none ∧
     (st.disposeNames ms).st.WF) := by
  induction ms with
  | nil =>
      intro st hWF hg _
      have hmem := mem_of_jsMapGet_eq_some _ _ _ hg
      exact absurd rfl (hWF.2.2.1 _ hmem).2
  | cons n rest2 ih =>
      intro st hWF hg herr
      have hmem : (k, n :: rest2) ∈ st.disposeSequenceMap := mem_of_jsMapGet_eq_some _ _ _ hg
      have hnd2 : (n :: rest2).Nodup := (hWF.2.2.1 _ hmem).1
      have hpres : (jsMapGet st.singletonContainer n).isSome = true :=
        hWF.2.2.2.2 _ hmem n (List.mem_cons_self n rest2)
      obtain ⟨inst, hgi⟩ := Option.isSome_iff_exists.mp hpres
      rcases hie : (st.disposeInstance n).err with _ | e2
      · have hok := disposeInstance_hooksOk_of_err_none st n inst hgi hie
        have hstep := disposeInstance_ok st n inst hgi hok
        rw [disposeNames_cons_ok st n rest2 hie] at herr ⊢
        simp only [hstep] at herr ⊢
        have hWF' := WF_afterDispose st n hWF
        have htrim : (n :: rest2).filter (fun m => decide (m ≠ n)) = rest2 := by
          rw [List.filter_cons, if_neg (by simp)]
          exact List.filter_eq_self.mpr (fun a ha => by
            simp only [decide_eq_true_eq]
            exact fun hae => (List.nodup_cons.mp hnd2).1 (hae ▸ ha))
        have hk' := jsMapGet_removeFromCohorts_of_mem st.disposeSequenceMap n k (n :: rest2)
          hWF.2.1 hg (List.mem_cons_self n rest2)
        rw [htrim] at hk'
        have haj : ∀ j, j ≠ k → jsMapGet (st.afterDispose n).disposeSequenceMap j
            = jsMapGet st.disposeSequenceMap j := by
          intro j hj
          show jsMapGet (removeFromCohorts st.disposeSequenceMap n) j = _
          rcases hgj : jsMapGet st.disposeSequenceMap j with _ | sj
          · exact jsMapGet_removeFromCohorts_of_none _ _ _ hgj
          · exact jsMapGet_removeFromCohorts_of_not_mem _ _ _ _ hgj
              (WF_disjoint st hWF j k sj (n :: rest2) hgj hg hj n (List.mem_cons_self n rest2))
        by_cases hre : rest2.isEmpty
        · have hre2 : rest2 = [] := List.isEmpty_iff.mp hre
          subst hre2
          refine ⟨?_, ?_, ?_⟩
          · intro j hj
            exact haj j hj
          · rw [if_pos hre] at hk'
            exact hk'
          · exact hWF'
        · rw [if_neg hre] at hk'
          obtain ⟨a1, a2, a3⟩ := ih (st.afterDispose n) hWF' hk' herr
          refine ⟨?_, a2, a3⟩
          intro j hj
          rw [a1 j hj, haj j hj]
      · rw [disposeNames_cons_err st n rest2 e2 hie] at herr
        simp at herr


/-- Master equation: the nested cohort loops of `disposeAll` are equivalent
to one sequential disposal of the flattened intended order. -/
theorem disposeSeqs_eq_disposeNames_flat :
    ∀ (seqs : List ℤ) (st : DisposableSingletonContainer), st.WF → seqs.Nodup →
    (∀ j ∈ jsMapKeys st.disposeSequenceMap, j ∈ seqs) →
    st.disposeSeqs seqs
      = st.disposeNames
          (seqs.flatMap (fun j => (jsMapGet st.disposeSequenceMap j).getD [])) := by
  intro seqs
  induction seqs with
  | nil =>
      intro st _ _ _
      rfl
  | cons k rest ihs =>
      intro st hWF hnd hsub
      have hknotin : k ∉ rest := (List.nodup_cons.mp hnd).1
      have hndrest : rest.Nodup := (List.nodup_cons.mp hnd).2
      rcases hgk : jsMapGet st.disposeSequenceMap k with _ | ms
      · have h0 : (st.disposeNames ((jsMapGet st.disposeSequenceMap k).getD [])).err
            = none := by
          rw [hgk]
          rfl
        rw [disposeSeqs_cons_ok st k rest h0, List.flatMap_cons, hgk]
        simp only [Option.getD_none, List.nil_append,
          DisposableSingletonContainer.disposeNames]
        have hsub' : ∀ j ∈ jsMapKeys st.disposeSequenceMap, j ∈ rest := by
          intro j hj
          rcases List.mem_cons.mp (hsub j hj) with he | hm
          · exfalso
            rw [he] at hj
            rw [jsMapGet_eq_none_iff] at hgk
            exact hgk hj
          · exact hm
        rw [ihs st hWF hndrest hsub']
      · rcases herr : (st.disposeNames ms).err with _ | e
        · obtain ⟨a1, a2, a3⟩ := disposeNames_cohort_drain k ms st hWF hgk herr
          rw [disposeSeqs_cons_ok st k rest (by rw [hgk]; exact herr),
            List.flatMap_cons, hgk]
          simp only [Option.getD_some]
          rw [disposeNames_append_ok st ms _ herr]
          have hmembers : ∀ j ∈ rest,
              (jsMapGet (st.disposeNames ms).st.disposeSequenceMap j).getD []
                = (jsMapGet st.disposeSequenceMap j).getD [] := by
            intro j hj
            rw [a1 j (fun he => hknotin (he ▸ hj))]
          have hsub1 : ∀ j ∈ jsMapKeys (st.disposeNames ms).st.disposeSequenceMap,
              j ∈ rest := by
            intro j hj
            have hne : j ≠ k := by
              intro he
              rw [he] at hj
              rw [jsMapGet_eq_none_iff] at a2
              exact a2 hj
            have hjs : jsMapGet st.disposeSequenceMap j ≠ none := by
              rw [← a1 j hne, Ne, jsMapGet_eq_none_iff]
              intro hns
              exact hns hj
            have hjk : j ∈ jsMapKeys st.disposeSequenceMap := by
              by_contra hcon
              exact hjs (jsMapGet_none_of_not_mem_keys _ _ hcon)
            rcases List.mem_cons.mp (hsub j hjk) with he | hm
            · exact absurd he hne
            · exact hm
          have hEq : (st.disposeNames ms).st.disposeSeqs rest
              = (st.disposeNames ms).st.disposeNames
                  (rest.flatMap (fun j => (jsMapGet st.disposeSequenceMap j).getD [])) := by
            rw [ihs (st.disposeNames ms).st a3 hndrest hsub1,
              flatMap_eq_of_eq_on rest _ _ hmembers]
          rw [hEq]
        · rw [disposeSeqs_cons_err st k rest e (by rw [hgk]; exact herr),
            List.flatMap_cons, hgk]
          simp only [Option.getD_some]
          rw [disposeNames_append_err st ms _ e herr, ← herr]


/-! ### Order of cohort processing -/

theorem disposeAll_eq_disposeNames_disposalOrder (st : DisposableSingletonContainer)
    (hWF : st.WF) : st.disposeAll = st.disposeNames st.disposalOrder := by
  have hperm := jsSortBy_perm (fun a b : ℤ => decide (b < a)) (jsMapKeys st.disposeSequenceMap)
  exact disposeSeqs_eq_disposeNames_flat st.sortedCohorts st hWF
    (hperm.nodup_iff.mpr hWF.2.1)
    (fun j hj => hperm.mem_iff.mpr hj)


theorem jsSortInsert_desc_sorted (a : ℤ) (l : List ℤ)
    (h : List.Pairwise (fun x y : ℤ => y ≤ x) l) :
    List.Pairwise (fun x y : ℤ => y ≤ x)
      (jsSortInsert (fun x y => decide (y < x)) a l) := by
  induction l with
  | nil => simp [jsSortInsert]
  | cons b t ih =>
      rw [jsSortInsert]
      have hpt := List.pairwise_cons.mp h
      by_cases hb : (decide (a < b) : Bool) = true
      · rw [if_pos hb]
        refine List.pairwise_cons.mpr ⟨?_, ih hpt.2⟩
        intro x hx
        have hmem := (jsSortInsert_perm _ a t).mem_iff.mp hx
        rcases List.mem_cons.mp hmem with rfl | hxt
        · exact le_of_lt (of_decide_eq_true hb)
        · exact hpt.1 x hxt
      · rw [if_neg hb]
        have hab : b ≤ a := le_of_not_lt (fun hlt => hb (decide_eq_true hlt))
        refine List.pairwise_cons.mpr ⟨?_, h⟩
        intro x hx
        rcases List.mem_cons.mp hx with rfl | hxt
        · exact hab
        · exact le_trans (hpt.1 x hxt) hab


theorem jsSortBy_desc_sorted (l : List ℤ) :
    List.Pairwise (fun x y : ℤ => y ≤ x) (jsSortBy (fun x y => decide (y < x)) l) := by
  induction l with
  | nil => simp [jsSortBy]
  | cons a t ih => exact jsSortInsert_desc_sorted a (jsSortBy _ t) ih


theorem sortedCohorts_strict_desc (st : DisposableSingletonContainer) (hWF : st.WF) :
    List.Pairwise (fun x y : ℤ => x > y) st.sortedCohorts := by
  have hperm := jsSortBy_perm (fun a b : ℤ => decide (b < a)) (jsMapKeys st.disposeSequenceMap)
  have hnd : st.sortedCohorts.Nodup := hperm.nodup_iff.mpr hWF.2.1
  have hsorted := jsSortBy_desc_sorted (jsMapKeys st.disposeSequenceMap)
  refine (hsorted.and hnd).imp ?_
  intro x y hxy
  exact lt_of_le_of_ne hxy.1 (fun he => hxy.2 he.symm)


theorem disposalOrder_nodup (st : DisposableSingletonContainer) (hWF : st.WF) :
    st.disposalOrder.Nodup := by
  unfold DisposableSingletonContainer.disposalOrder
  rw [List.nodup_flatMap]
  constructor
  · intro k _
    rcases hg : jsMapGet st.disposeSequenceMap k with _ | s
    · simp
    · simp only [Option.getD_some]
      exact (hWF.2.2.1 _ (mem_of_jsMapGet_eq_some _ _ _ hg)).1
  · have hnd : st.sortedCohorts.Nodup :=
      (jsSortBy_perm _ _).nodup_iff.mpr hWF.2.1
    refine hnd.imp ?_
    intro a b hab
    show List.Disjoint ((jsMapGet st.disposeSequenceMap a).getD [])
      ((jsMapGet st.disposeSequenceMap b).getD [])
    rcases hga : jsMapGet st.disposeSequenceMap a with _ | sa
    · simp [List.Disjoint]
    · rcases hgb : jsMapGet st.disposeSequenceMap b with _ | sb
      · simp [List.Disjoint]
      · simp only [Option.getD_some]
        intro n hn
        exact WF_disjoint st hWF b a sb sa hgb hga (fun he => hab he.symm) n hn


theorem disposalOrder_pres (st : DisposableSingletonContainer) (hWF : st.WF)
    (hok : st.hooksOk) :
    ∀ n ∈ st.disposalOrder,
      ∃ inst, jsMapGet st.singletonContainer n = some inst ∧ inst.hooksOk := by
  intro n hn
  unfold DisposableSingletonContainer.disposalOrder at hn
  rw [List.mem_flatMap] at hn
  obtain ⟨k, _, hnk⟩ := hn
  rcases hg : jsMapGet st.disposeSequenceMap k with _ | s
  · rw [hg] at hnk
    simp at hnk
  · rw [hg] at hnk
    simp only [Option.getD_some] at hnk
    have hmem := mem_of_jsMapGet_eq_some _ _ _ hg
    have hpres := hWF.2.2.2.2 _ hmem n hnk
    obtain ⟨inst, hgi⟩ := Option.isSome_iff_exists.mp hpres
    exact ⟨inst, hgi, hok (n, inst) (mem_of_jsMapGet_eq_some _ _ _ hgi)⟩


/-! ### Auto-assigned cohorts from a sequence of creations -/

theorem jsMapSet_eq_append {K V : Type} [DecidableEq K] (m : List (K × V)) (k : K) (v : V)
    (h : k ∉ jsMapKeys m) : jsMapSet m k v = m ++ [(k, v)] := by
  induction m with
  | nil => rfl
  | cons p t ih =>
      rw [jsMapKeys_cons, List.mem_cons, not_or] at h
      rw [jsMapSet, if_neg (fun he => h.1 he.symm), List.cons_append,
        ih h.2]


theorem cohortTail_keys_bound (c : ℤ) (names : List String) :
    ∀ j ∈ jsMapKeys (cohortTail c names), c < j := by
  induction names generalizing c with
  | nil => intro j hj; simp [cohortTail, jsMapKeys] at hj
  | cons n rest ih =>
      intro j hj
      rw [show cohortTail c (n :: rest) = (c + 1, [n]) :: cohortTail (c + 1) rest from rfl,
        jsMapKeys_cons, List.mem_cons] at hj
      rcases hj with rfl | hj
      · exact lt_add_one c
      · exact lt_trans (lt_add_one c) (ih (c + 1) j hj)


theorem cohortTail_keys_ascending (c : ℤ) (names : List String) :
    List.Pairwise (fun x y : ℤ => x < y) (jsMapKeys (cohortTail c names)) := by
  induction names generalizing c with
  | nil => simp [cohortTail, jsMapKeys]
  | cons n rest ih =>
      rw [show cohortTail c (n :: rest) = (c + 1, [n]) :: cohortTail (c + 1) rest from rfl,
        jsMapKeys_cons]
      exact List.pairwise_cons.mpr ⟨fun j hj => cohortTail_keys_bound (c + 1) rest j hj, ih (c + 1)⟩


theorem createFold_spec (g : String → Instance) (names : List String) :
    ∀ (st : DisposableSingletonContainer),
    (∀ n ∈ names, jsMapGet st.singletonContainer n = none) →
    (∀ j ∈ jsMapKeys st.disposeSequenceMap, j ≤ st.disposeSequence) →
    names.Nodup →
    (createFold g st names).disposeSequenceMap
      = st.disposeSequenceMap ++ cohortTail st.disposeSequence names := by
  induction names with
  | nil => intro st _ _ _; simp [createFold, cohortTail]
  | cons n rest ih =>
      intro st habsent hbound hnd
      have hg : jsMapGet st.singletonContainer n = none :=
        habsent n (List.mem_cons_self n rest)
      have hcnew : st.disposeSequence + 1 ∉ jsMapKeys st.disposeSequenceMap := by
        intro hmem
        have := hbound _ hmem
        omega
      have hgetc : jsMapGet st.disposeSequenceMap (st.disposeSequence + 1) = none :=
        jsMapGet_none_of_not_mem_keys _ _ hcnew
      have hstep : (st.createInstance n (fun _ => g n) none none).st
          = { singletonContainer := jsMapSet st.singletonContainer n (g n),
              disposeSequenceMap := st.disposeSequenceMap
                ++ [(st.disposeSequence + 1, [n])],
              disposeSequence := st.disposeSequence + 1 } := by
        unfold DisposableSingletonContainer.createInstance
        rw [hg]
        simp only [Option.isSome_none, Bool.false_eq_true, if_false]
        unfold DisposableSingletonContainer.registerInstance
        rw [if_neg (by simp)]
        simp only [jsOrElseInt, hgetc, Option.getD_none, jsSetAdd]
        rw [if_neg (List.not_mem_nil n)]
        rw [jsMapSet_eq_append st.disposeSequenceMap _ _ hcnew]
        simp [BootstrapConstructor.createInstance]
      rw [show createFold g st (n :: rest)
          = createFold g (st.createInstance n (fun _ => g n) none none).st rest from rfl]
      rw [hstep]
      rw [ih _ ?habs ?hbnd (List.nodup_cons.mp hnd).2]
      · simp only []
        rw [List.append_assoc]
        rfl
      case habs =>
        intro m hm
        show jsMapGet (jsMapSet st.singletonContainer n (g n)) m = none
        rw [jsMapGet_jsMapSet_ne st.singletonContainer n m (g n)
          (fun he : n = m => (List.nodup_cons.mp hnd).1 (by rw [he]; exact hm))]
        exact habsent m (List.mem_cons_of_mem n hm)
      case hbnd =>
        intro j hj
        show j ≤ st.disposeSequence + 1
        rw [show jsMapKeys (st.disposeSequenceMap ++ [(st.disposeSequence + 1, [n])])
            = jsMapKeys st.disposeSequenceMap ++ [st.disposeSequence + 1] from by
          unfold jsMapKeys; rw [List.map_append]; rfl] at hj
        rcases List.mem_append.mp hj with hj1 | hj2
        · exact le_trans (hbound j hj1) (by omega)
        · rw [List.mem_singleton.mp hj2]


theorem sortDesc_eq_reverse (l : List ℤ)
    (h : List.Pairwise (fun x y : ℤ => x < y) l) :
    jsSortBy (fun a b => decide (b < a)) l = l.reverse := by
  have hanti : IsAntisymm ℤ (fun x y : ℤ => y ≤ x) :=
    ⟨fun a b h1 h2 => le_antisymm h2 h1⟩
  refine List.eq_of_perm_of_sorted (r := fun x y : ℤ => y ≤ x)
    ((jsSortBy_perm _ l).trans (List.reverse_perm l).symm) ?_ ?_
  · exact jsSortBy_desc_sorted l
  · show List.Pairwise (fun x y : ℤ => y ≤ x) l.reverse
    rw [List.pairwise_reverse]
    exact h.imp le_of_lt


theorem cohortTail_flatMap_reverse (names : List String) :
    ∀ c : ℤ, ((jsMapKeys (cohortTail c names)).reverse).flatMap
      (fun k => (jsMapGet (cohortTail c names) k).getD []) = names.reverse := by
  induction names with
  | nil => intro c; rfl
  | cons n rest ih =>
      intro c
      rw [show cohortTail c (n :: rest) = (c + 1, [n]) :: cohortTail (c + 1) rest from rfl,
        jsMapKeys_cons, List.reverse_cons, List.flatMap_append]
      have hget : ∀ k ∈ (jsMapKeys (cohortTail (c + 1) rest)).reverse,
          (jsMapGet ((c + 1, [n]) :: cohortTail (c + 1) rest) k).getD []
            = (jsMapGet (cohortTail (c + 1) rest) k).getD [] := by
        intro k hk
        have hkgt : c + 1 < k :=
          cohortTail_keys_bound (c + 1) rest k (List.mem_reverse.mp hk)
        rw [jsMapGet, if_neg (by omega)]
      rw [flatMap_eq_of_eq_on _ _ _ hget, ih (c + 1)]
      rw [show ([c + 1] : List ℤ).flatMap
          (fun k => (jsMapGet ((c + 1, [n]) :: cohortTail (c + 1) rest) k).getD [])
          = [n] from by
        simp [List.flatMap, jsMapGet]]
      rw [List.reverse_cons]


theorem createdState_disposalOrder (g : String → Instance) (names : List String)
    (hnd : names.Nodup) :
    (createdState g names).disposalOrder = names.reverse := by
  have hdsm : (createdState g names).disposeSequenceMap = cohortTail 0 names := by
    unfold createdState
    rw [createFold_spec g names DisposableSingletonContainer.empty
      (fun n _ => rfl) (fun j hj => by simp [DisposableSingletonContainer.empty, jsMapKeys] at hj)
      hnd]
    rfl
  unfold DisposableSingletonContainer.disposalOrder
    DisposableSingletonContainer.sortedCohorts
  rw [hdsm, sortDesc_eq_reverse _ (cohortTail_keys_ascending 0 names),
    cohortTail_flatMap_reverse names 0]


/-! ### C2: disposeAll order -/

/-- C2: under the container invariant and with non-throwing hooks,
`disposeAll` completes without error and its release-hook events are exactly
those of `disposalOrder` — the cohorts in strictly descending numeric order,
each fully drained (its members in the cohort set's insertion order) before
the next-lower cohort; and for a container populated only by creations with
auto-assigned cohorts, the disposal order is the reverse of the creation
order, so the first-created resource is disposed last. -/
theorem C2_disposeAll_descending_cohorts :
    (∀ st : DisposableSingletonContainer, st.WF → st.hooksOk →
      st.disposeAll.events = st.disposalOrder.flatMap st.instanceEvents ∧
      st.disposeAll.err = none ∧
      List.Pairwise (fun x y : ℤ => x > y) st.sortedCohorts) ∧
    (∀ (g : String → Instance) (names : List String), names.Nodup →
      (createdState g names).disposalOrder = names.reverse ∧
      (createdState g names).disposalOrder.getLast? = names.head?) := by
  constructor
  · intro st hWF hok
    have heq := disposeAll_eq_disposeNames_disposalOrder st hWF
    obtain ⟨e1, e2, _⟩ := disposeNames_ok_run st st.disposalOrder
      (disposalOrder_nodup st hWF) (disposalOrder_pres st hWF hok)
    refine ⟨?_, ?_, sortedCohorts_strict_desc st hWF⟩
    · rw [heq]
      exact e1
    · rw [heq]
      exact e2
  · intro g names hnd
    have h := createdState_disposalOrder g names hnd
    refine ⟨h, ?_⟩
    rw [h, List.getLast?_reverse]


/-- Witness for C2 on a concrete two-resource container. -/
theorem C2_disposeAll_descending_cohorts_witness :
    ((createdState witnessInstanceFn ["a", "b"]).WF ∧
     (createdState witnessInstanceFn ["a", "b"]).hooksOk ∧
     ((createdState witnessInstanceFn ["a", "b"]).disposeAll.events
        = (createdState witnessInstanceFn ["a", "b"]).disposalOrder.flatMap
            (createdState witnessInstanceFn ["a", "b"]).instanceEvents ∧
      (createdState witnessInstanceFn ["a", "b"]).disposeAll.err = none ∧
      List.Pairwise (fun x y : ℤ => x > y)
        (createdState witnessInstanceFn ["a", "b"]).sortedCohorts)) ∧
    ((["a", "b"] : List String).Nodup ∧
     (createdState witnessInstanceFn ["a", "b"]).disposalOrder = ["b", "a"]) := by
  refine ⟨⟨by decide, by decide,
    C2_disposeAll_descending_cohorts.1 _ (by decide) (by decide)⟩, by decide, ?_⟩
  rw [(C2_disposeAll_descending_cohorts.2 witnessInstanceFn ["a", "b"] (by decide)).1]
  rfl


/-! ### C4: sync hook before async hook, once each -/

theorem flatMap_filter_name (st : DisposableSingletonContainer) (L : List String)
    (hnd : L.Nodup) (n : String) :
    (L.flatMap st.instanceEvents).filter (fun e => decide (e.name = n))
      = if n ∈ L then st.instanceEvents n else [] := by
  induction L with
  | nil => simp
  | cons m rest ih =>
      rw [List.flatMap_cons, List.filter_append]
      have hblock : (st.instanceEvents m).filter (fun e => decide (e.name = n))
          = if m = n then st.instanceEvents m else [] := by
        by_cases hmn : m = n
        · subst hmn
          rw [if_pos rfl]
          exact List.filter_eq_self.mpr (fun e he =>
            decide_eq_true (mem_instanceEvents_name st m e he))
        · rw [if_neg hmn]
          refine List.filter_eq_nil_iff.mpr ?_
          intro e he
          rw [mem_instanceEvents_name st m e he]
          simp [hmn]
      rw [hblock, ih (List.nodup_cons.mp hnd).2]
      by_cases hmn : m = n
      · subst hmn
        rw [if_pos rfl, if_pos (List.mem_cons_self m rest),
          if_neg (List.nodup_cons.mp hnd).1]
        simp
      · rw [if_neg hmn, List.nil_append]
        by_cases hmem : n ∈ rest
        · rw [if_pos hmem, if_pos (List.mem_cons_of_mem m hmem)]
        · rw [if_neg hmem, if_neg (fun hc => by
            rcases List.mem_cons.mp hc with he | hm
            · exact hmn he.symm
            · exact hmem hm)]


/-- C4: for every disposed resource the synchronous release hook (if
present) is invoked before the asynchronous one (if present), exactly once
each: the event list of a completed `disposeInstance` is precisely the sync
event followed by the async event, and in a full `disposeAll` run the events
carrying a resource's name are exactly that one block. -/
theorem C4_sync_hook_before_async_hook :
    (∀ (st : DisposableSingletonContainer) (n : String) (inst : Instance),
      jsMapGet st.singletonContainer n = some inst → inst.hooksOk →
      (st.disposeInstance n).events =
        (match inst.syncHook with
         | some _ => [DEvent.syncCall n]
         | none => []) ++
        (match inst.asyncHook with
         | some _ => [DEvent.asyncCall n]
         | none => [])) ∧
    (∀ st : DisposableSingletonContainer, st.WF → st.hooksOk → ∀ n : String,
      st.disposeAll.events.filter (fun e => decide (e.name = n))
        = if n ∈ st.disposalOrder then st.instanceEvents n else []) := by
  constructor
  · intro st n inst hg hok
    rw [disposeInstance_ok st n inst hg hok]
    rfl
  · intro st hWF hok n
    rw [disposeAll_eq_disposeNames_disposalOrder st hWF]
    obtain ⟨e1, _, _⟩ := disposeNames_ok_run st st.disposalOrder
      (disposalOrder_nodup st hWF) (disposalOrder_pres st hWF hok)
    rw [e1]
    exact flatMap_filter_name st st.disposalOrder (disposalOrder_nodup st hWF) n


/-- Witness for C4 on a concrete container with both hooks present. -/
theorem C4_sync_hook_before_async_hook_witness :
    (jsMapGet (createdState witnessInstanceFn ["a"]).singletonContainer "a"
        = some { id := 0, syncHook := some false, asyncHook := some false } ∧
      Instance.hooksOk { id := 0, syncHook := some false, asyncHook := some false } ∧
      ((createdState witnessInstanceFn ["a"]).disposeInstance "a").events
        = [DEvent.syncCall "a", DEvent.asyncCall "a"]) ∧
    ((createdState witnessInstanceFn ["a"]).WF ∧
      (createdState witnessInstanceFn ["a"]).hooksOk ∧
      (createdState witnessInstanceFn ["a"]).disposeAll.events.filter
          (fun e => decide (e.name = "a"))
        = if "a" ∈ (createdState witnessInstanceFn ["a"]).disposalOrder
          then (createdState witnessInstanceFn ["a"]).instanceEvents "a" else []) := by
  refine ⟨⟨by decide, by decide, ?_⟩,
    by decide, by decide,
    C4_sync_hook_before_async_hook.2 _ (by decide) (by decide) "a"⟩
  rw [C4_sync_hook_before_async_hook.1 (createdState witnessInstanceFn ["a"]) "a"
    { id := 0, syncHook := some false, asyncHook := some false } (by decide) (by decide)]
  rfl


/-! ### C5: a throwing release hook aborts the remaining teardown -/

/-- C5: a release hook that throws propagates out immediately: a throwing
sync hook makes `disposeInstance` return the exception with no removal
performed; and during `disposeAll`, once the failing resource is reached
(all earlier resources in the disposal order having benign hooks), the run
ends with the exception and no event of any later resource in the disposal
order is emitted — the rest of the cohort and all lower cohorts are not
disposed. -/
theorem C5_hook_failure_aborts_disposal :
    (∀ (st : DisposableSingletonContainer) (n : String) (inst : Instance),
      jsMapGet st.singletonContainer n = some inst → inst.syncHook = some true →
      st.disposeInstance n =
        { events := [DEvent.syncCall n], st := st, err := some "dispose hook threw" }) ∧
    (∀ (st : DisposableSingletonContainer) (L1 L2 : List String) (n : String)
      (inst : Instance), st.WF →
      st.disposalOrder = L1 ++ n :: L2 →
      (∀ m ∈ L1, ∃ i, jsMapGet st.singletonContainer m = some i ∧ i.hooksOk) →
      jsMapGet st.singletonContainer n = some inst →
      (inst.syncHook = some true ∨
        (inst.syncHook ≠ some true ∧ inst.asyncHook = some true)) →
      (st.disposeAll.err = some "dispose hook threw" ∧
       ∀ m ∈ L2, ∀ e ∈ st.disposeAll.events, e.name ≠ m)) := by
  constructor
  · exact disposeInstance_sync_fails
  · intro st L1 L2 n inst hWF horder hpres hg hfail
    have hnodup : (L1 ++ n :: L2).Nodup := horder ▸ disposalOrder_nodup st hWF
    have hnd1 : L1.Nodup := hnodup.sublist (List.sublist_append_left L1 (n :: L2))
    have hdisj : L1.Disjoint (n :: L2) := (List.nodup_append.mp hnodup).2.2
    have hndr : (n :: L2).Nodup := (List.nodup_append.mp hnodup).2.1
    obtain ⟨e1, e2, e3⟩ := disposeNames_ok_run st L1 hnd1 hpres
    have hnotin : n ∉ L1 := fun hc => hdisj hc (List.mem_cons_self n L2)
    have hg1 : jsMapGet (st.disposeNames L1).st.singletonContainer n = some inst := by
      rw [e3 n hnotin]
      exact hg
    have hstep : ∃ ev, (st.disposeNames L1).st.disposeInstance n
        = { events := ev, st := (st.disposeNames L1).st, err := some "dispose hook threw" }
        ∧ ∀ e ∈ ev, e.name = n := by
      rcases hfail with hf | ⟨hs, hf⟩
      · refine ⟨[DEvent.syncCall n],
          disposeInstance_sync_fails (st.disposeNames L1).st n inst hg1 hf, ?_⟩
        intro e he
        rw [List.mem_singleton.mp he]
        rfl
      · refine ⟨(invokeHook (DEvent.syncCall n) inst.syncHook).1 ++ [DEvent.asyncCall n],
          disposeInstance_async_fails (st.disposeNames L1).st n inst hg1 hs hf, ?_⟩
        intro e he
        rcases List.mem_append.mp he with h1 | h1
        · rcases hook_cases_of_ne_some_true inst.syncHook hs with hsy | hsy <;>
            rw [hsy] at h1 <;> simp [invokeHook] at h1
          rw [h1]
          rfl
        · rw [List.mem_singleton.mp h1]
          rfl
    obtain ⟨evF, hstepEq, hEvNames⟩ := hstep
    have herr1 : ((st.disposeNames L1).st.disposeInstance n).err
        = some "dispose hook threw" := by
      rw [hstepEq]
    rw [disposeAll_eq_disposeNames_disposalOrder st hWF, horder,
      disposeNames_append_ok st L1 (n :: L2) e2,
      disposeNames_cons_err (st.disposeNames L1).st n L2 _ herr1]
    constructor
    · rfl
    · intro m hm e he
      have hm2 : m ∉ L1 := fun hc => hdisj hc (List.mem_cons_of_mem n hm)
      have hm3 : n ≠ m := fun he2 => (List.nodup_cons.mp hndr).1 (he2 ▸ hm)
      simp only [hstepEq] at he
      rcases List.mem_append.mp he with h1 | h1
      · rw [e1] at h1
        rw [List.mem_flatMap] at h1
        obtain ⟨m1, hm1, he1⟩ := h1
        rw [mem_instanceEvents_name st m1 e he1]
        exact fun hc => hm2 (hc ▸ hm1)
      · rw [hEvNames e h1]
        exact hm3


/-- Witness for C5: in a three-resource container where the middle resource
of the disposal order throws, `disposeAll` ends with the exception and the
last resource is never disposed. -/
theorem C5_hook_failure_aborts_disposal_witness :
    (jsMapGet (createdState mixedInstanceFn ["b"]).singletonContainer "b"
        = some { id := 1, syncHook := some true, asyncHook := none } ∧
     (createdState mixedInstanceFn ["b"]).disposeInstance "b"
        = { events := [DEvent.syncCall "b"], st := createdState mixedInstanceFn ["b"],
            err := some "dispose hook threw" }) ∧
    ((createdState mixedInstanceFn ["a", "b", "c"]).WF ∧
     (createdState mixedInstanceFn ["a", "b", "c"]).disposalOrder = ["c"] ++ "b" :: ["a"] ∧
     ((createdState mixedInstanceFn ["a", "b", "c"]).disposeAll.err
        = some "dispose hook threw" ∧
      ∀ m ∈ (["a"] : List String),
        ∀ e ∈ (createdState mixedInstanceFn ["a", "b", "c"]).disposeAll.events,
          DEvent.name e ≠ m)) := by
  refine ⟨⟨by decide, ?_⟩, by decide, by decide, ?_⟩
  · exact C5_hook_failure_aborts_disposal.1 (createdState mixedInstanceFn ["b"]) "b"
      { id := 1, syncHook := some true, asyncHook := none } (by decide) rfl
  · exact C5_hook_failure_aborts_disposal.2 (createdState mixedInstanceFn ["a", "b", "c"])
      ["c"] ["a"] "b" { id := 1, syncHook := some true, asyncHook := none }
      (by decide) (by decide)
      (fun m hm => by
        rw [List.mem_singleton.mp hm]
        exact ⟨mixedInstanceFn "c", by decide, by decide⟩)
      (by decide) (Or.inl rfl)


theorem registerInstance_true_eq (st : DisposableSingletonContainer) (name : String)
    (inst : Instance) (sq : Option ℤ) :
    st.registerInstance name inst sq true =
      (true,
        { singletonContainer := jsMapSet st.singletonContainer name inst,
          disposeSequenceMap := jsMapSet st.disposeSequenceMap
            (jsOrElseInt sq (st.disposeSequence + 1))
            (jsSetAdd ((jsMapGet st.disposeSequenceMap
              (jsOrElseInt sq (st.disposeSequence + 1))).getD []) name),
          disposeSequence := st.disposeSequence + 1 }) := by
  unfold DisposableSingletonContainer.registerInstance
  rw [if_neg (by simp)]


theorem applyCreate_hit (st : DisposableSingletonContainer) (name : String) (c : CreateCall)
    (h : (jsMapGet st.singletonContainer name).isSome) :
    applyCreate st name c
      = { calls := 0, st := st, result := jsMapGet st.singletonContainer name } := by
  rcases c with ⟨kind, mk, args, sq⟩
  cases kind <;>
    simp [applyCreate, DisposableSingletonContainer.createInstance,
      DisposableSingletonContainer.createInstanceWithoutConstructor,
      DisposableSingletonContainer.createAsyncInstanceWithoutConstructor, h]


theorem applyCreate_miss (st : DisposableSingletonContainer) (name : String) (c : CreateCall)
    (h : jsMapGet st.singletonContainer name = none) :
    (applyCreate st name c).calls = 1 ∧
    jsMapGet (applyCreate st name c).st.singletonContainer name = some c.built ∧
    (applyCreate st name c).result = some c.built := by
  have hns : (jsMapGet st.singletonContainer name).isSome = false := by
    rw [h]
    rfl
  rcases c with ⟨kind, mk, args, sq⟩
  cases kind <;>
    simp [applyCreate, DisposableSingletonContainer.createInstance,
      DisposableSingletonContainer.createInstanceWithoutConstructor,
      DisposableSingletonContainer.createAsyncInstanceWithoutConstructor, hns,
      registerInstance_true_eq, jsMapGet_jsMapSet_self, CreateCall.built,
      BootstrapConstructor.createInstance,
      BootstrapConstructor.createInstanceWithoutConstructor,
      BootstrapConstructor.createAsyncInstanceWithoutConstructor]


theorem runCreateCalls_hit (st : DisposableSingletonContainer) (name : String)
    (calls : List CreateCall) (h : (jsMapGet st.singletonContainer name).isSome) :
    runCreateCalls st name calls
      = (0, st, List.replicate calls.length (jsMapGet st.singletonContainer name)) := by
  induction calls with
  | nil => rfl
  | cons c rest ih =>
      rw [show runCreateCalls st name (c :: rest)
          = ((applyCreate st name c).calls + (runCreateCalls (applyCreate st name c).st name rest).1,
             (runCreateCalls (applyCreate st name c).st name rest).2.1,
             (applyCreate st name c).result
               :: (runCreateCalls (applyCreate st name c).st name rest).2.2) from rfl]
      simp only [applyCreate_hit st name c h]
      rw [ih]
      simp [List.replicate_succ]


/-- C3: for one name and any sequence of create calls (mixing the three
entry points) with no intervening disposal, the constructor/factory runs
exactly once in total — on the first call — every call returns the instance
the first call built, and no call after the first changes the container. -/
theorem C3_create_is_cached (st : DisposableSingletonContainer) (name : String)
    (c : CreateCall) (calls : List CreateCall)
    (habsent : jsMapGet st.singletonContainer name = none) :
    (applyCreate st name c).calls = 1 ∧
    (runCreateCalls st name (c :: calls)).1 = 1 ∧
    (runCreateCalls st name (c :: calls)).2.1 = (applyCreate st name c).st ∧
    ∀ r ∈ (runCreateCalls st name (c :: calls)).2.2, r = some c.built := by
  obtain ⟨m1, m2, m3⟩ := applyCreate_miss st name c habsent
  have hsome : (jsMapGet (applyCreate st name c).st.singletonContainer name).isSome := by
    rw [m2]
    rfl
  have hrun := runCreateCalls_hit (applyCreate st name c).st name calls hsome
  rw [show runCreateCalls st name (c :: calls)
      = ((applyCreate st name c).calls + (runCreateCalls (applyCreate st name c).st name calls).1,
         (runCreateCalls (applyCreate st name c).st name calls).2.1,
         (applyCreate st name c).result
           :: (runCreateCalls (applyCreate st name c).st name calls).2.2) from rfl]
  rw [hrun]
  refine ⟨m1, by simp [m1], by simp, ?_⟩
  intro r hr
  simp only at hr
  rcases List.mem_cons.mp hr with rfl | hr2
  · exact m3
  · rw [List.eq_of_mem_replicate hr2, m2]


/-- Witness for C3: two repeated creations under one name, the second via a
different entry point and factory, still return the first instance. -/
theorem C3_create_is_cached_witness :
    jsMapGet DisposableSingletonContainer.empty.singletonContainer "a" = none ∧
    ((applyCreate DisposableSingletonContainer.empty "a"
        { kind := CreateKind.viaConstructor, make := witnessInstanceFn "a" |> fun i _ => i,
          args := none, seq := none }).calls = 1 ∧
     (runCreateCalls DisposableSingletonContainer.empty "a"
        [{ kind := CreateKind.viaConstructor, make := witnessInstanceFn "a" |> fun i _ => i,
           args := none, seq := none },
         { kind := CreateKind.viaFunction, make := mixedInstanceFn "b" |> fun i _ => i,
           args := none, seq := none }]).1 = 1 ∧
     (runCreateCalls DisposableSingletonContainer.empty "a"
        [{ kind := CreateKind.viaConstructor, make := witnessInstanceFn "a" |> fun i _ => i,
           args := none, seq := none },
         { kind := CreateKind.viaFunction, make := mixedInstanceFn "b" |> fun i _ => i,
           args := none, seq := none }]).2.1
       = (applyCreate DisposableSingletonContainer.empty "a"
          { kind := CreateKind.viaConstructor, make := witnessInstanceFn "a" |> fun i _ => i,
            args := none, seq := none }).st ∧
     ∀ r ∈ (runCreateCalls DisposableSingletonContainer.empty "a"
        [{ kind := CreateKind.viaConstructor, make := witnessInstanceFn "a" |> fun i _ => i,
           args := none, seq := none },
         { kind := CreateKind.viaFunction, make := mixedInstanceFn "b" |> fun i _ => i,
           args := none, seq := none }]).2.2,
       r = some (CreateCall.built
          { kind := CreateKind.viaConstructor, make := witnessInstanceFn "a" |> fun i _ => i,
            args := none, seq := none })) :=
  ⟨rfl, C3_create_is_cached DisposableSingletonContainer.empty "a" _ _ rfl⟩


/-! ### C9: an explicit cohort of 0 is falsy -/

theorem jsOrElseInt_ne_zero (sq : Option ℤ) (d : ℤ) (hd : d ≠ 0) : jsOrElseInt sq d ≠ 0 := by
  rcases sq with _ | v
  · exact hd
  · show (if v = 0 then d else v) ≠ 0
    by_cases hv : v = 0
    · rw [if_pos hv]
      exact hd
    · rw [if_neg hv]
      exact hv


theorem disposeInstance_st_cases (st : DisposableSingletonContainer) (n : String) :
    (st.disposeInstance n).st = st ∨ (st.disposeInstance n).st = st.afterDispose n := by
  unfold DisposableSingletonContainer.disposeInstance
  rcases hg : jsMapGet st.singletonContainer n with _ | inst
  · exact Or.inl rfl
  · rcases hsy : inst.syncHook with _ | b
    · rcases has : inst.asyncHook with _ | c
      · right
        simp [invokeHook, hsy, has, DisposableSingletonContainer.afterDispose]
      · cases c
        · right
          simp [invokeHook, hsy, has, DisposableSingletonContainer.afterDispose]
        · left
          simp [invokeHook, hsy, has]
    · cases b
      · rcases has : inst.asyncHook with _ | c
        · right
          simp [invokeHook, hsy, has, DisposableSingletonContainer.afterDispose]
        · cases c
          · right
            simp [invokeHook, hsy, has, DisposableSingletonContainer.afterDispose]
          · left
            simp [invokeHook, hsy, has]
      · left
        simp [invokeHook, hsy]


theorem disposeInstance_keys_counter (st : DisposableSingletonContainer) (n : String) :
    List.Sublist (jsMapKeys (st.disposeInstance n).st.disposeSequenceMap)
      (jsMapKeys st.disposeSequenceMap) ∧
    (st.disposeInstance n).st.disposeSequence = st.disposeSequence := by
  rcases disposeInstance_st_cases st n with h | h <;> rw [h]
  · exact ⟨List.Sublist.refl _, rfl⟩
  · exact ⟨jsMapKeys_removeFromCohorts_sublist _ _, rfl⟩


theorem disposeNames_keys_counter (st : DisposableSingletonContainer) (names : List String) :
    List.Sublist (jsMapKeys (st.disposeNames names).st.disposeSequenceMap)
      (jsMapKeys st.disposeSequenceMap) ∧
    (st.disposeNames names).st.disposeSequence = st.disposeSequence := by
  induction names generalizing st with
  | nil => exact ⟨List.Sublist.refl _, rfl⟩
  | cons n rest ih =>
      rcases herr : (st.disposeInstance n).err with _ | e
      · rw [disposeNames_cons_ok st n rest herr]
        obtain ⟨s1, c1⟩ := disposeInstance_keys_counter st n
        obtain ⟨s2, c2⟩ := ih (st.disposeInstance n).st
        exact ⟨s2.trans s1, c2.trans c1⟩
      · rw [disposeNames_cons_err st n rest e herr]
        exact disposeInstance_keys_counter st n


theorem disposeSeqs_keys_counter (st : DisposableSingletonContainer) (seqs : List ℤ) :
    List.Sublist (jsMapKeys (st.disposeSeqs seqs).st.disposeSequenceMap)
      (jsMapKeys st.disposeSequenceMap) ∧
    (st.disposeSeqs seqs).st.disposeSequence = st.disposeSequence := by
  induction seqs generalizing st with
  | nil => exact ⟨List.Sublist.refl _, rfl⟩
  | cons s rest ih =>
      rcases herr : (st.disposeNames ((jsMapGet st.disposeSequenceMap s).getD [])).err
        with _ | e
      · rw [disposeSeqs_cons_ok st s rest herr]
        obtain ⟨s1, c1⟩ := disposeNames_keys_counter st
          ((jsMapGet st.disposeSequenceMap s).getD [])
        obtain ⟨s2, c2⟩ := ih (st.disposeNames ((jsMapGet st.disposeSequenceMap s).getD [])).st
        exact ⟨s2.trans s1, c2.trans c1⟩
      · rw [disposeSeqs_cons_err st s rest e herr]
        exact disposeNames_keys_counter st _


theorem registerInstance_else_eq (st : DisposableSingletonContainer) (n : String)
    (i : Instance) (sq : Option ℤ) (b : Bool)
    (hcond : ¬(b = false ∧ (jsMapGet st.singletonContainer n).isSome = true)) :
    st.registerInstance n i sq b =
      (true,
        { singletonContainer := jsMapSet st.singletonContainer n i,
          disposeSequenceMap := jsMapSet st.disposeSequenceMap
            (jsOrElseInt sq (st.disposeSequence + 1))
            (jsSetAdd ((jsMapGet st.disposeSequenceMap
              (jsOrElseInt sq (st.disposeSequence + 1))).getD []) n),
          disposeSequence := st.disposeSequence + 1 }) := by
  unfold DisposableSingletonContainer.registerInstance
  rw [if_neg hcond]


theorem registerInstance_noCohortZero (st : DisposableSingletonContainer) (n : String)
    (i : Instance) (sq : Option ℤ) (b : Bool) (h : noCohortZero st) :
    noCohortZero (st.registerInstance n i sq b).2 := by
  by_cases hcond : b = false ∧ (jsMapGet st.singletonContainer n).isSome = true
  · have heq : st.registerInstance n i sq b = (false, st) := by
      unfold DisposableSingletonContainer.registerInstance
      rw [if_pos hcond]
    rw [heq]
    exact h
  · rw [registerInstance_else_eq st n i sq b hcond]
    constructor
    · intro hmem
      replace hmem : (0 : ℤ) ∈ jsMapKeys (jsMapSet st.disposeSequenceMap
          (jsOrElseInt sq (st.disposeSequence + 1))
          (jsSetAdd ((jsMapGet st.disposeSequenceMap
            (jsOrElseInt sq (st.disposeSequence + 1))).getD []) n)) := hmem
      rw [mem_keys_jsMapSet] at hmem
      rcases hmem with hmem | hkey
      · exact h.1 hmem
      · exact jsOrElseInt_ne_zero sq (st.disposeSequence + 1)
          (by have h2 := h.2; omega) hkey.symm
    · show (0 : ℤ) ≤ st.disposeSequence + 1
      have h2 := h.2
      omega


theorem createInstance_noCohortZero (st : DisposableSingletonContainer) (n : String)
    (mk : List ℕ → Instance) (args : Option (List ℕ)) (sq : Option ℤ)
    (h : noCohortZero st) : noCohortZero (st.createInstance n mk args sq).st := by
  unfold DisposableSingletonContainer.createInstance
  by_cases hc : (jsMapGet st.singletonContainer n).isSome = true
  · rw [if_pos hc]
    exact h
  · rw [if_neg hc]
    exact registerInstance_noCohortZero st n _ sq true h


theorem createInstanceWithoutConstructor_noCohortZero (st : DisposableSingletonContainer)
    (n : String) (mk : List ℕ → Instance) (args : Option (List ℕ)) (sq : Option ℤ)
    (h : noCohortZero st) :
    noCohortZero (st.createInstanceWithoutConstructor n mk args sq).st := by
  unfold DisposableSingletonContainer.createInstanceWithoutConstructor
  by_cases hc : (jsMapGet st.singletonContainer n).isSome = true
  · rw [if_pos hc]
    exact h
  · rw [if_neg hc]
    exact registerInstance_noCohortZero st n _ sq true h


theorem createAsyncInstanceWithoutConstructor_noCohortZero
    (st : DisposableSingletonContainer) (n : String) (mk : List ℕ → Instance)
    (args : Option (List ℕ)) (sq : Option ℤ) (h : noCohortZero st) :
    noCohortZero (st.createAsyncInstanceWithoutConstructor n mk args sq).st := by
  unfold DisposableSingletonContainer.createAsyncInstanceWithoutConstructor
  by_cases hc : (jsMapGet st.singletonContainer n).isSome = true
  · rw [if_pos hc]
    exact h
  · rw [if_neg hc]
    exact registerInstance_noCohortZero st n _ sq true h


theorem runContainerOp_noCohortZero (st : DisposableSingletonContainer) (op : ContainerOp)
    (h : noCohortZero st) : noCohortZero (runContainerOp st op) := by
  cases op with
  | createOp n mk a s => exact createInstance_noCohortZero st n mk a s h
  | createFnOp n mk a s => exact createInstanceWithoutConstructor_noCohortZero st n mk a s h
  | createAsyncOp n mk a s =>
      exact createAsyncInstanceWithoutConstructor_noCohortZero st n mk a s h
  | registerOp n i s b => exact registerInstance_noCohortZero st n i s b h
  | disposeOp n =>
      show noCohortZero (st.disposeInstance n).st
      obtain ⟨s1, c1⟩ := disposeInstance_keys_counter st n
      exact ⟨fun hm => h.1 (s1.subset hm), by rw [c1]; exact h.2⟩
  | disposeAllOp =>
      show noCohortZero (st.disposeSeqs st.sortedCohorts).st
      obtain ⟨s1, c1⟩ := disposeSeqs_keys_counter st st.sortedCohorts
      exact ⟨fun hm => h.1 (s1.subset hm), by rw [c1]; exact h.2⟩


theorem runContainerOps_noCohortZero (ops : List ContainerOp) :
    ∀ st, noCohortZero st → noCohortZero (runContainerOps st ops) := by
  induction ops with
  | nil => exact fun st h => h
  | cons op rest ih =>
      intro st h
      exact ih _ (runContainerOp_noCohortZero st op h)


/-- C9: `disposeSequence = disposeSequence || this.disposeSequence` treats an
explicit cohort of 0 as falsy: every create/register entry point with cohort
`some 0` behaves identically to the same call with the cohort omitted (the
next auto-incremented cohort is assigned), and starting from a
default-constructed container no sequence of public operations ever
populates cohort 0. -/
theorem C9_cohort_zero_is_falsy :
    (∀ (st : DisposableSingletonContainer) (name : String) (inst : Instance) (b : Bool),
      st.registerInstance name inst (some 0) b = st.registerInstance name inst none b) ∧
    (∀ (st : DisposableSingletonContainer) (name : String) (mk : List ℕ → Instance)
        (args : Option (List ℕ)),
      st.createInstance name mk args (some 0) = st.createInstance name mk args none ∧
      st.createInstanceWithoutConstructor name mk args (some 0)
        = st.createInstanceWithoutConstructor name mk args none ∧
      st.createAsyncInstanceWithoutConstructor name mk args (some 0)
        = st.createAsyncInstanceWithoutConstructor name mk args none) ∧
    (∀ ops : List ContainerOp,
      (0 : ℤ) ∉ jsMapKeys
        (runContainerOps DisposableSingletonContainer.empty ops).disposeSequenceMap) := by
  refine ⟨?_, ?_, ?_⟩
  · intro st name inst b
    rfl
  · intro st name mk args
    exact ⟨rfl, rfl, rfl⟩
  · intro ops
    exact (runContainerOps_noCohortZero ops DisposableSingletonContainer.empty
      ⟨by simp [DisposableSingletonContainer.empty, jsMapKeys], le_refl 0⟩).1


/-- C6 (modelled from the spec): the startup health query returns 200
exactly when the lifecycle status is `Up`, and 503 both while `Starting`
and in the failed `Down` state, whatever the probes report. -/
theorem C6_startup_health_200_iff_up :
    (∀ (phase : LifecyclePhase) (rp lp : ProbeStatus),
      checkHealth phase "startup" rp lp = 200 ↔ phase = LifecyclePhase.Up) ∧
    (∀ rp lp : ProbeStatus, checkHealth LifecyclePhase.Starting "startup" rp lp = 503) ∧
    (∀ rp lp : ProbeStatus, checkHealth LifecyclePhase.Down "startup" rp lp = 503) := by
  refine ⟨?_, ?_, ?_⟩
  · intro phase rp lp
    cases phase <;> cases rp <;> cases lp <;> decide
  · intro rp lp
    rfl
  · intro rp lp
    rfl


theorem createAsync_fetch_isSome (st : DisposableSingletonContainer) (name : String)
    (mk : List ℕ → Instance) (args : Option (List ℕ)) (sq : Option ℤ) :
    ((st.createAsyncInstanceWithoutConstructor name mk args sq).st.fetchInstance
      name).isSome = true := by
  unfold DisposableSingletonContainer.createAsyncInstanceWithoutConstructor
    DisposableSingletonContainer.fetchInstance
  by_cases hc : (jsMapGet st.singletonContainer name).isSome = true
  · rw [if_pos hc]
    exact hc
  · rw [if_neg hc]
    show (jsMapGet (st.registerInstance name
      (BootstrapConstructor.createAsyncInstanceWithoutConstructor mk args)
      sq true).2.singletonContainer name).isSome = true
    rw [registerInstance_true_eq]
    show (jsMapGet (jsMapSet st.singletonContainer name
      (BootstrapConstructor.createAsyncInstanceWithoutConstructor mk args))
      name).isSome = true
    rw [jsMapGet_jsMapSet_self]
    rfl


theorem createAsync_preserves_other (st : DisposableSingletonContainer)
    (name other : String) (mk : List ℕ → Instance) (args : Option (List ℕ))
    (sq : Option ℤ) (hne : name ≠ other) :
    jsMapGet (st.createAsyncInstanceWithoutConstructor name mk
        args sq).st.singletonContainer other
      = jsMapGet st.singletonContainer other := by
  unfold DisposableSingletonContainer.createAsyncInstanceWithoutConstructor
  by_cases hc : (jsMapGet st.singletonContainer name).isSome = true
  · rw [if_pos hc]
  · rw [if_neg hc]
    show jsMapGet (st.registerInstance name
      (BootstrapConstructor.createAsyncInstanceWithoutConstructor mk args)
      sq true).2.singletonContainer other = jsMapGet st.singletonContainer other
    rw [registerInstance_true_eq]
    show jsMapGet (jsMapSet st.singletonContainer name
      (BootstrapConstructor.createAsyncInstanceWithoutConstructor mk args)) other
      = jsMapGet st.singletonContainer other
    rw [jsMapGet_jsMapSet_ne st.singletonContainer name other _ hne]


/-- C7 (modelled from the spec): on a successful startup (handler status
`UP`), `start()` instantiates the health listener before the primary
listener under their fixed well-known names: the creation order lists the
health listener first, the health listener resource already exists in the
container state in which the primary listener is created, and afterwards
both exist with the lifecycle `Up`. -/
theorem C7_health_listener_created_before_primary
    (container : DisposableSingletonContainer) (hs : ProbeStatus)
    (healthListener applicationListener : Instance) (h : hs = ProbeStatus.up) :
    ((ApplicationBuilder.start container hs healthListener
        applicationListener).creationOrder
      = [healthListenerName, applicationListenerName]) ∧
    (((ApplicationBuilder.start container hs healthListener
        applicationListener).containerBeforePrimary.fetchInstance
        healthListenerName).isSome = true) ∧
    (((ApplicationBuilder.start container hs healthListener
        applicationListener).container.fetchInstance healthListenerName).isSome = true) ∧
    (((ApplicationBuilder.start container hs healthListener
        applicationListener).container.fetchInstance
        applicationListenerName).isSome = true) ∧
    (ApplicationBuilder.start container hs healthListener applicationListener).phase
      = LifecyclePhase.Up := by
  subst h
  refine ⟨rfl, ?_, ?_, ?_, rfl⟩
  · exact createAsync_fetch_isSome container healthListenerName
      (fun _ => healthListener) none none
  · show ((((container.createAsyncInstanceWithoutConstructor healthListenerName
        (fun _ => healthListener) none
        none).st.createAsyncInstanceWithoutConstructor applicationListenerName
        (fun _ => applicationListener) none none).st.fetchInstance
        healthListenerName).isSome = true)
    unfold DisposableSingletonContainer.fetchInstance
    rw [createAsync_preserves_other _ applicationListenerName healthListenerName
      (fun _ => applicationListener) none none (by decide)]
    exact createAsync_fetch_isSome container healthListenerName
      (fun _ => healthListener) none none
  · exact createAsync_fetch_isSome _ applicationListenerName
      (fun _ => applicationListener) none none


/-- Witness for C7 at concrete inputs. -/
theorem C7_health_listener_created_before_primary_witness :
    (ProbeStatus.up = ProbeStatus.up) ∧
    (((ApplicationBuilder.start DisposableSingletonContainer.empty ProbeStatus.up
        (witnessInstanceFn "h") (witnessInstanceFn "p")).creationOrder
      = [healthListenerName, applicationListenerName]) ∧
    (((ApplicationBuilder.start DisposableSingletonContainer.empty ProbeStatus.up
        (witnessInstanceFn "h") (witnessInstanceFn "p")).containerBeforePrimary.fetchInstance
        healthListenerName).isSome = true) ∧
    (((ApplicationBuilder.start DisposableSingletonContainer.empty ProbeStatus.up
        (witnessInstanceFn "h") (witnessInstanceFn "p")).container.fetchInstance
        healthListenerName).isSome = true) ∧
    (((ApplicationBuilder.start DisposableSingletonContainer.empty ProbeStatus.up
        (witnessInstanceFn "h") (witnessInstanceFn "p")).container.fetchInstance
        applicationListenerName).isSome = true) ∧
    (ApplicationBuilder.start DisposableSingletonContainer.empty ProbeStatus.up
        (witnessInstanceFn "h") (witnessInstanceFn "p")).phase = LifecyclePhase.Up) :=
  ⟨rfl, C7_health_listener_created_before_primary DisposableSingletonContainer.empty
    ProbeStatus.up (witnessInstanceFn "h") (witnessInstanceFn "p") rfl⟩
